import Mathlib

/-!
Verification of the clipping core of `main.py`: the Cohen–Sutherland
segment clipper `cohen_sutherland_clip` and the Sutherland–Hodgman
polygon clipper `sutherland_hodgman_clip_polygon`.

Coordinates are modelled by `ℚ` (the source works on Python floats; all
claims are about exact real arithmetic, and every operation used by the
source — comparison, `+`, `-`, `*`, `/` — is field arithmetic).

The `while True` loop of `cohen_sutherland_clip` is embedded as a
fuel-indexed recursion `csClipAux`; `none` marks fuel exhaustion and a
theorem below shows that fuel 9 is never exhausted for a valid
rectangle, so the embedding with fuel 9 computes exactly what the
source loop computes on every input covered by the claims.
-/

namespace Lab5

structure Point where
  x : ℚ
  y : ℚ
deriving DecidableEq, Repr

structure Segment where
  p1 : Point
  p2 : Point
deriving DecidableEq, Repr

structure Rect where
  xmin : ℚ
  ymin : ℚ
  xmax : ℚ
  ymax : ℚ
deriving DecidableEq, Repr

/-- The documented invariant of `Rect` (spec §3): `xmin ≤ xmax ∧ ymin ≤ ymax`. -/
def validRect (r : Rect) : Prop :=
  r.xmin ≤ r.xmax ∧ r.ymin ≤ r.ymax

instance (r : Rect) : Decidable (validRect r) := by
  unfold validRect; exact inferInstance

/-- Membership of a point in the closed rectangle. -/
def inRect (r : Rect) (p : Point) : Prop :=
  r.xmin ≤ p.x ∧ p.x ≤ r.xmax ∧ r.ymin ≤ p.y ∧ p.y ≤ r.ymax

instance (r : Rect) (p : Point) : Decidable (inRect r p) := by
  unfold inRect; exact inferInstance

/-- Linear interpolation between two points; `interp a b 0 = a`, `interp a b 1 = b`. -/
def interp (a b : Point) (t : ℚ) : Point :=
  ⟨a.x + (b.x - a.x) * t, a.y + (b.y - a.y) * t⟩

/-- `p` lies on the closed segment `s`. -/
def onSeg (s : Segment) (p : Point) : Prop :=
  ∃ t : ℚ, 0 ≤ t ∧ t ≤ 1 ∧ p = interp s.p1 s.p2 t

/-- The outcode of `cohen_sutherland_clip` (`INSIDE, LEFT, RIGHT, BOTTOM, TOP =
0, 1, 2, 4, 8`): `if p.x < xmin: code |= LEFT elif p.x > xmax: code |= RIGHT`,
and independently `if p.y < ymin: code |= BOTTOM elif p.y > ymax: code |= TOP`. -/
def outcode (r : Rect) (p : Point) : Nat :=
  (if p.x < r.xmin then 1 else if p.x > r.xmax then 2 else 0) |||
  (if p.y < r.ymin then 4 else if p.y > r.ymax then 8 else 0)

/-- The body of the four `if out & TOP / BOTTOM / RIGHT / LEFT` interpolation
branches of the loop, computing the replacement point `(x, y)`.  The final
`else` is the `elif out & LEFT` branch of the source: when the loop reaches
this point `out` is a nonzero outcode, so one of the four bits is set and the
source's `elif` chain is exhaustive. -/
def clipPoint (r : Rect) (p1 p2 : Point) (out : Nat) : Point :=
  if out &&& 8 ≠ 0 then
    ⟨p1.x + (p2.x - p1.x) * (r.ymax - p1.y) / (p2.y - p1.y), r.ymax⟩
  else if out &&& 4 ≠ 0 then
    ⟨p1.x + (p2.x - p1.x) * (r.ymin - p1.y) / (p2.y - p1.y), r.ymin⟩
  else if out &&& 2 ≠ 0 then
    ⟨r.xmax, p1.y + (p2.y - p1.y) * (r.xmax - p1.x) / (p2.x - p1.x)⟩
  else
    ⟨r.xmin, p1.y + (p2.y - p1.y) * (r.xmin - p1.x) / (p2.x - p1.x)⟩

/-- One unfolding of the `while True:` loop of `cohen_sutherland_clip` per unit
of fuel.  The source keeps `c1 = outcode(p1)` and `c2 = outcode(p2)` as cached
state, re-computed exactly at each update; here they are recomputed at each
loop entry, which gives the same values.  The source's endpoint selection
`out = c1 or c2` followed by `if out == c1: update p1 else: update p2`
resolves to the two-way branch below: if `c1 ≠ 0` then `out = c1` and `p1` is
replaced; if `c1 = 0` then (the accept test having failed) `c2 ≠ 0`, so
`out = c2 ≠ 0 = c1` and `p2` is replaced.  `some res` is the loop returning
`res` (`res = some seg` for accept, `res = none` for trivial reject); the
outer `none` marks fuel exhaustion and is proved unreachable from fuel 9 for
valid rectangles. -/
def csClipAux (r : Rect) : Nat → Point → Point → Option (Option Segment)
  | 0, _, _ => none
  | fuel + 1, p1, p2 =>
    if outcode r p1 = 0 ∧ outcode r p2 = 0 then
      some (some ⟨p1, p2⟩)
    else if outcode r p1 &&& outcode r p2 ≠ 0 then
      some none
    else if outcode r p1 ≠ 0 then
      csClipAux r fuel (clipPoint r p1 p2 (outcode r p1)) p2
    else
      csClipAux r fuel p1 (clipPoint r p1 p2 (outcode r p2))

/-- `cohen_sutherland_clip(seg, rect)` of the source.  Fuel 9 suffices for
every valid rectangle (theorem `csClipAux_fuel9_isSome` below); in that case
the `getD none` just unwraps the loop's result. -/
def cohen_sutherland_clip (seg : Segment) (rect : Rect) : Option Segment :=
  (csClipAux rect 9 seg.p1 seg.p2).getD none

/-- `inside(p, a, b)` of `sutherland_hodgman_clip_polygon`: `p` is on the left
of (or on) the directed line `a → b`. -/
def inside (p a b : Point) : Prop :=
  (b.x - a.x) * (p.y - a.y) - (b.y - a.y) * (p.x - a.x) ≥ 0

instance (p a b : Point) : Decidable (inside p a b) := by
  unfold inside; exact inferInstance

/-- `intersection(p1, p2, a, b)` of `sutherland_hodgman_clip_polygon`: solve
the 2×2 implicit-form system, returning `p2` when the determinant is zero. -/
def intersection (p1 p2 a b : Point) : Point :=
  let A1 := p2.y - p1.y
  let B1 := p1.x - p2.x
  let C1 := A1 * p1.x + B1 * p1.y
  let A2 := b.y - a.y
  let B2 := a.x - b.x
  let C2 := A2 * a.x + B2 * a.y
  let det := A1 * B2 - A2 * B1
  if det = 0 then p2
  else ⟨(B2 * C1 - B1 * C2) / det, (A1 * C2 - A2 * C1) / det⟩

/-- The inner `for j in range(len(input_list))` loop of
`sutherland_hodgman_clip_polygon` for one clip edge `(A, B)`: the point lists
appended for each `j` (in order) are concatenated, exactly as the source
appends them to `output`. -/
def shEdgePass (A B : Point) (input : List Point) : List Point :=
  (List.range input.length).flatMap fun j =>
    let P := input.getD j ⟨0, 0⟩
    let Q := input.getD ((j + 1) % input.length) ⟨0, 0⟩
    if inside Q A B then
      (if ¬ inside P A B then [intersection P Q A B] else []) ++ [Q]
    else if inside P A B then [intersection P Q A B]
    else []

/-- `sutherland_hodgman_clip_polygon(poly, clipper)` of the source: fold the
edge pass over the clipper's edges `(clipper[i], clipper[(i+1) % len])`,
starting from `output = poly`. -/
def sutherland_hodgman_clip_polygon (poly clipper : List Point) : List Point :=
  (List.range clipper.length).foldl
    (fun output i =>
      shEdgePass (clipper.getD i ⟨0, 0⟩) (clipper.getD ((i + 1) % clipper.length) ⟨0, 0⟩)
        output)
    poly

/-- Signed (shoelace) polygon area of a closed vertex list. -/
def polyArea (l : List Point) : ℚ :=
  ((List.range l.length).map fun i =>
    (l.getD i ⟨0, 0⟩).x * (l.getD ((i + 1) % l.length) ⟨0, 0⟩).y -
    (l.getD ((i + 1) % l.length) ⟨0, 0⟩).x * (l.getD i ⟨0, 0⟩).y).sum / 2

/-- Number of axes on which `p` violates the rectangle (0, 1 or 2). -/
def cnt (r : Rect) (p : Point) : ℕ :=
  (if p.x < r.xmin ∨ r.xmax < p.x then 1 else 0) +
  (if p.y < r.ymin ∨ r.ymax < p.y then 1 else 0)

/-- Strictly decreasing measure of the clipping loop: twice the number of
violated boundaries, plus one while the loop can still clip (no shared bit). -/
def meas (r : Rect) (p1 p2 : Point) : ℕ :=
  2 * (cnt r p1 + cnt r p2) + (if outcode r p1 &&& outcode r p2 = 0 then 1 else 0)

/-- Invariant of the clipping loop: both working endpoints are on the
original segment `s0`, and inside the rectangle the working segment and `s0`
have exactly the same points. -/
def SegEquiv (r : Rect) (s0 : Segment) (p1 p2 : Point) : Prop :=
  onSeg s0 p1 ∧ onSeg s0 p2 ∧ ∀ p, inRect r p → (onSeg ⟨p1, p2⟩ p ↔ onSeg s0 p)

/-- Number of clipping iterations applied to the first endpoint by the loop
(instrumentation of `csClipAux`, same branch structure). -/
def csClipCount1 (r : Rect) : Nat → Point → Point → Nat
  | 0, _, _ => 0
  | fuel + 1, p1, p2 =>
    if outcode r p1 = 0 ∧ outcode r p2 = 0 then 0
    else if outcode r p1 &&& outcode r p2 ≠ 0 then 0
    else if outcode r p1 ≠ 0 then
      csClipCount1 r fuel (clipPoint r p1 p2 (outcode r p1)) p2 + 1
    else
      csClipCount1 r fuel p1 (clipPoint r p1 p2 (outcode r p2))

/-- Number of clipping iterations applied to the second endpoint by the loop. -/
def csClipCount2 (r : Rect) : Nat → Point → Point → Nat
  | 0, _, _ => 0
  | fuel + 1, p1, p2 =>
    if outcode r p1 = 0 ∧ outcode r p2 = 0 then 0
    else if outcode r p1 &&& outcode r p2 ≠ 0 then 0
    else if outcode r p1 ≠ 0 then
      csClipCount2 r fuel (clipPoint r p1 p2 (outcode r p1)) p2
    else
      csClipCount2 r fuel p1 (clipPoint r p1 p2 (outcode r p2)) + 1

/-! ### Outcode characterization -/

lemma outcode_eq_zero_iff (r : Rect) (p : Point) : outcode r p = 0 ↔ inRect r p := by
  unfold outcode inRect
  split_ifs <;>
    first
      | exact iff_of_true (by decide) (by constructor <;> first | linarith | constructor <;>
          first | linarith | constructor <;> linarith)
      | exact iff_of_false (by decide) (by intro h; obtain ⟨h1, h2, h3, h4⟩ := h; linarith)

lemma outcode_and_one (r : Rect) (p : Point) :
    outcode r p &&& 1 ≠ 0 ↔ p.x < r.xmin := by
  unfold outcode
  split_ifs <;>
    first
      | exact iff_of_true (by decide) (by tauto)
      | exact iff_of_false (by decide) (by tauto)

lemma outcode_and_two (r : Rect) (p : Point) :
    outcode r p &&& 2 ≠ 0 ↔ ¬ p.x < r.xmin ∧ r.xmax < p.x := by
  unfold outcode
  split_ifs <;>
    first
      | exact iff_of_true (by decide) (by tauto)
      | exact iff_of_false (by decide) (by tauto)

lemma outcode_and_four (r : Rect) (p : Point) :
    outcode r p &&& 4 ≠ 0 ↔ p.y < r.ymin := by
  unfold outcode
  split_ifs <;>
    first
      | exact iff_of_true (by decide) (by tauto)
      | exact iff_of_false (by decide) (by tauto)

lemma outcode_and_eight (r : Rect) (p : Point) :
    outcode r p &&& 8 ≠ 0 ↔ ¬ p.y < r.ymin ∧ r.ymax < p.y := by
  unfold outcode
  split_ifs <;>
    first
      | exact iff_of_true (by decide) (by tauto)
      | exact iff_of_false (by decide) (by tauto)

set_option maxHeartbeats 1000000 in
/-- A shared set bit in the two outcodes means both points are strictly outside
the same boundary. -/
lemma outcode_and_outcode_cases (r : Rect) (p q : Point)
    (h : outcode r p &&& outcode r q ≠ 0) :
    (p.x < r.xmin ∧ q.x < r.xmin) ∨ (r.xmax < p.x ∧ r.xmax < q.x) ∨
    (p.y < r.ymin ∧ q.y < r.ymin) ∨ (r.ymax < p.y ∧ r.ymax < q.y) := by
  unfold outcode at h
  split_ifs at h <;> first | exact absurd h (by decide) | tauto

set_option maxHeartbeats 1000000 in
/-- Both points strictly beyond the same boundary forces a shared outcode bit
(for a valid rectangle). -/
lemma outcode_and_outcode_ne_zero (r : Rect) (p q : Point)
    (hv1 : r.xmin ≤ r.xmax) (hv2 : r.ymin ≤ r.ymax)
    (h : (p.x < r.xmin ∧ q.x < r.xmin) ∨ (r.xmax < p.x ∧ r.xmax < q.x) ∨
      (p.y < r.ymin ∧ q.y < r.ymin) ∨ (r.ymax < p.y ∧ r.ymax < q.y)) :
    outcode r p &&& outcode r q ≠ 0 := by
  unfold outcode
  split_ifs <;>
    first
      | decide
      | (exfalso; rcases h with ⟨a, b⟩ | ⟨a, b⟩ | ⟨a, b⟩ | ⟨a, b⟩ <;> linarith)

/-! ### Interpolation and convexity helpers -/

lemma interp_zero (a b : Point) : interp a b 0 = a := by
  unfold interp; cases a; cases b; simp

lemma interp_one (a b : Point) : interp a b 1 = b := by
  unfold interp; cases a; cases b; simp

lemma onSeg_p1 (s : Segment) : onSeg s s.p1 :=
  ⟨0, le_refl 0, by norm_num, (interp_zero s.p1 s.p2).symm⟩

lemma onSeg_p2 (s : Segment) : onSeg s s.p2 :=
  ⟨1, by norm_num, le_refl 1, (interp_one s.p1 s.p2).symm⟩

/-- Composing interpolations: a point of the segment between two points of a
segment is a point of that segment. -/
lemma interp_interp (a b : Point) (s1 s2 u : ℚ) :
    interp (interp a b s1) (interp a b s2) u = interp a b (s1 + (s2 - s1) * u) := by
  unfold interp
  simp only [Point.mk.injEq]
  constructor <;> ring

lemma convex_unit_mem (s1 s2 u : ℚ) (h1 : 0 ≤ s1) (h2 : s1 ≤ 1) (h3 : 0 ≤ s2)
    (h4 : s2 ≤ 1) (h5 : 0 ≤ u) (h6 : u ≤ 1) :
    0 ≤ s1 + (s2 - s1) * u ∧ s1 + (s2 - s1) * u ≤ 1 := by
  constructor <;> nlinarith

lemma onSeg_trans (s : Segment) (a b : Point) (ha : onSeg s a) (hb : onSeg s b)
    (q : Point) (hq : onSeg ⟨a, b⟩ q) : onSeg s q := by
  obtain ⟨s1, hs1, hs1', ha'⟩ := ha
  obtain ⟨s2, hs2, hs2', hb'⟩ := hb
  obtain ⟨u, hu, hu', hq'⟩ := hq
  refine ⟨s1 + (s2 - s1) * u, (convex_unit_mem s1 s2 u hs1 hs1' hs2 hs2' hu hu').1,
    (convex_unit_mem s1 s2 u hs1 hs1' hs2 hs2' hu hu').2, ?_⟩
  rw [hq']
  show interp a b u = interp s.p1 s.p2 (s1 + (s2 - s1) * u)
  rw [ha', hb', interp_interp]

lemma convex_between (x1 x2 t : ℚ) (h0 : 0 ≤ t) (h1 : t ≤ 1) :
    min x1 x2 ≤ x1 + (x2 - x1) * t ∧ x1 + (x2 - x1) * t ≤ max x1 x2 := by
  rcases le_total x1 x2 with h | h
  · rw [min_eq_left h, max_eq_right h]
    constructor <;> nlinarith
  · rw [min_eq_right h, max_eq_left h]
    constructor <;> nlinarith

/-- The rectangle is convex: interpolation between two member points stays in it. -/
lemma inRect_interp (r : Rect) (a b : Point) (t : ℚ) (ha : inRect r a) (hb : inRect r b)
    (h0 : 0 ≤ t) (h1 : t ≤ 1) : inRect r (interp a b t) := by
  obtain ⟨ha1, ha2, ha3, ha4⟩ := ha
  obtain ⟨hb1, hb2, hb3, hb4⟩ := hb
  have hx := convex_between a.x b.x t h0 h1
  have hy := convex_between a.y b.y t h0 h1
  refine ⟨?_, ?_, ?_, ?_⟩
  · exact le_trans (le_min ha1 hb1) hx.1
  · exact le_trans hx.2 (max_le ha2 hb2)
  · exact le_trans (le_min ha3 hb3) hy.1
  · exact le_trans hy.2 (max_le ha4 hb4)

/-! ### Interpolation parameters of the four clip branches -/

lemma ratio_unit_pos (ym y1 y2 : ℚ) (h1 : y1 ≤ ym) (h2 : ym ≤ y2) (hlt : y1 < y2) :
    0 ≤ (ym - y1) / (y2 - y1) ∧ (ym - y1) / (y2 - y1) ≤ 1 := by
  have hden : 0 < y2 - y1 := by linarith
  constructor
  · apply div_nonneg <;> linarith
  · rw [div_le_one hden]; linarith

lemma ratio_unit_neg (ym y1 y2 : ℚ) (h1 : ym ≤ y1) (h2 : y2 ≤ ym) (hlt : y2 < y1) :
    0 ≤ (ym - y1) / (y2 - y1) ∧ (ym - y1) / (y2 - y1) ≤ 1 := by
  have hden : y2 - y1 < 0 := by linarith
  constructor
  · apply div_nonneg_of_nonpos <;> linarith
  · rw [div_le_iff_of_neg hden]; linarith

lemma interp_y_eq (p1 p2 : Point) (c : ℚ) (hden : p2.y - p1.y ≠ 0) :
    (interp p1 p2 ((c - p1.y) / (p2.y - p1.y))).y = c := by
  show p1.y + (p2.y - p1.y) * ((c - p1.y) / (p2.y - p1.y)) = c
  rw [mul_comm, div_mul_cancel₀ _ hden]
  ring

lemma interp_x_eq (p1 p2 : Point) (c : ℚ) (hden : p2.x - p1.x ≠ 0) :
    (interp p1 p2 ((c - p1.x) / (p2.x - p1.x))).x = c := by
  show p1.x + (p2.x - p1.x) * ((c - p1.x) / (p2.x - p1.x)) = c
  rw [mul_comm, div_mul_cancel₀ _ hden]
  ring

lemma interp_x_between (p1 p2 : Point) (t : ℚ) (h0 : 0 ≤ t) (h1 : t ≤ 1) :
    min p1.x p2.x ≤ (interp p1 p2 t).x ∧ (interp p1 p2 t).x ≤ max p1.x p2.x :=
  convex_between p1.x p2.x t h0 h1

lemma interp_y_between (p1 p2 : Point) (t : ℚ) (h0 : 0 ≤ t) (h1 : t ≤ 1) :
    min p1.y p2.y ≤ (interp p1 p2 t).y ∧ (interp p1 p2 t).y ≤ max p1.y p2.y :=
  convex_between p1.y p2.y t h0 h1

/-- The TOP branch of `clipPoint` computes the interpolation at parameter
`(ymax - p1.y) / (p2.y - p1.y)`. -/
lemma clipPoint_eq_interp_top (r : Rect) (p1 p2 : Point) (out : Nat)
    (h8 : out &&& 8 ≠ 0) (hden : p2.y - p1.y ≠ 0) :
    clipPoint r p1 p2 out = interp p1 p2 ((r.ymax - p1.y) / (p2.y - p1.y)) := by
  unfold clipPoint interp
  rw [if_pos h8]
  simp only [Point.mk.injEq]
  constructor
  · rw [mul_div_assoc]
  · rw [mul_comm, div_mul_cancel₀ _ hden]; ring

/-- The BOTTOM branch of `clipPoint` computes the interpolation at parameter
`(ymin - p1.y) / (p2.y - p1.y)`. -/
lemma clipPoint_eq_interp_bottom (r : Rect) (p1 p2 : Point) (out : Nat)
    (h8 : out &&& 8 = 0) (h4 : out &&& 4 ≠ 0) (hden : p2.y - p1.y ≠ 0) :
    clipPoint r p1 p2 out = interp p1 p2 ((r.ymin - p1.y) / (p2.y - p1.y)) := by
  unfold clipPoint interp
  rw [if_neg (not_not_intro h8), if_pos h4]
  simp only [Point.mk.injEq]
  constructor
  · rw [mul_div_assoc]
  · rw [mul_comm, div_mul_cancel₀ _ hden]; ring

/-- The RIGHT branch of `clipPoint` computes the interpolation at parameter
`(xmax - p1.x) / (p2.x - p1.x)`. -/
lemma clipPoint_eq_interp_right (r : Rect) (p1 p2 : Point) (out : Nat)
    (h8 : out &&& 8 = 0) (h4 : out &&& 4 = 0) (h2 : out &&& 2 ≠ 0)
    (hden : p2.x - p1.x ≠ 0) :
    clipPoint r p1 p2 out = interp p1 p2 ((r.xmax - p1.x) / (p2.x - p1.x)) := by
  unfold clipPoint interp
  rw [if_neg (not_not_intro h8), if_neg (not_not_intro h4), if_pos h2]
  simp only [Point.mk.injEq]
  constructor
  · rw [mul_comm, div_mul_cancel₀ _ hden]; ring
  · rw [mul_div_assoc]

/-- The LEFT branch of `clipPoint` computes the interpolation at parameter
`(xmin - p1.x) / (p2.x - p1.x)`. -/
lemma clipPoint_eq_interp_left (r : Rect) (p1 p2 : Point) (out : Nat)
    (h8 : out &&& 8 = 0) (h4 : out &&& 4 = 0) (h2 : out &&& 2 = 0)
    (hden : p2.x - p1.x ≠ 0) :
    clipPoint r p1 p2 out = interp p1 p2 ((r.xmin - p1.x) / (p2.x - p1.x)) := by
  unfold clipPoint interp
  rw [if_neg (not_not_intro h8), if_neg (not_not_intro h4), if_neg (not_not_intro h2)]
  simp only [Point.mk.injEq]
  constructor
  · rw [mul_comm, div_mul_cancel₀ _ hden]; ring
  · rw [mul_div_assoc]

/-- A nonzero outcode has one of the four bits set (tested in the loop's
priority order). -/
lemma outcode_cases_bits (r : Rect) (p : Point) :
    outcode r p = 0 ∨ outcode r p &&& 8 ≠ 0 ∨ outcode r p &&& 4 ≠ 0 ∨
    outcode r p &&& 2 ≠ 0 ∨ outcode r p &&& 1 ≠ 0 := by
  unfold outcode
  split_ifs <;> decide

/-! ### Termination measure for the clipping loop -/

lemma cnt_le_two (r : Rect) (p : Point) : cnt r p ≤ 2 := by
  unfold cnt; split_ifs <;> norm_num

lemma meas_le_nine (r : Rect) (p1 p2 : Point) : meas r p1 p2 ≤ 9 := by
  have h1 := cnt_le_two r p1
  have h2 := cnt_le_two r p2
  unfold meas
  split_ifs <;> omega

/-- Core of the measure decrease, `p1`-replacement, `y`-pinned form: the
new point has its `y` coordinate inside the band, its `x` coordinate between
the endpoints, and replaces a `p1` that violated a `y` boundary. -/
lemma meas_lt_of_ypinned_p1 (r : Rect) (p1 p2 q : Point)
    (hv1 : r.xmin ≤ r.xmax) (hv2 : r.ymin ≤ r.ymax)
    (hqy1 : r.ymin ≤ q.y) (hqy2 : q.y ≤ r.ymax)
    (hminx : min p1.x p2.x ≤ q.x) (hmaxx : q.x ≤ max p1.x p2.x)
    (hy1 : p1.y < r.ymin ∨ r.ymax < p1.y)
    (hand : outcode r p1 &&& outcode r p2 = 0) :
    meas r q p2 < meas r p1 p2 := by
  have hqyf : ¬ (q.y < r.ymin ∨ r.ymax < q.y) := by
    simp only [not_or, not_lt]; exact ⟨hqy1, hqy2⟩
  unfold meas cnt
  rw [if_neg hqyf, if_pos hy1, if_pos hand]
  by_cases hxq : q.x < r.xmin ∨ r.xmax < q.x
  · by_cases hx1 : p1.x < r.xmin ∨ r.xmax < p1.x
    · rw [if_pos hxq, if_pos hx1]
      split_ifs <;> omega
    · have hone : outcode r q &&& outcode r p2 ≠ 0 := by
        simp only [not_or, not_lt] at hx1
        rcases hxq with hql | hqr
        · have hp2 : p2.x < r.xmin := by
            rcases min_lt_iff.mp (lt_of_le_of_lt hminx hql) with h | h
            · exact absurd h (not_lt.mpr hx1.1)
            · exact h
          exact outcode_and_outcode_ne_zero r q p2 hv1 hv2 (Or.inl ⟨hql, hp2⟩)
        · have hp2 : r.xmax < p2.x := by
            rcases lt_max_iff.mp (lt_of_lt_of_le hqr hmaxx) with h | h
            · exact absurd h (not_lt.mpr hx1.2)
            · exact h
          exact outcode_and_outcode_ne_zero r q p2 hv1 hv2 (Or.inr (Or.inl ⟨hqr, hp2⟩))
      rw [if_pos hxq, if_neg hx1, if_neg hone]
      split_ifs <;> omega
  · rw [if_neg hxq]
    split_ifs <;> omega

/-- Core of the measure decrease, `p1`-replacement, `x`-pinned form. -/
lemma meas_lt_of_xpinned_p1 (r : Rect) (p1 p2 q : Point)
    (hv1 : r.xmin ≤ r.xmax) (hv2 : r.ymin ≤ r.ymax)
    (hqx1 : r.xmin ≤ q.x) (hqx2 : q.x ≤ r.xmax)
    (hminy : min p1.y p2.y ≤ q.y) (hmaxy : q.y ≤ max p1.y p2.y)
    (hx1 : p1.x < r.xmin ∨ r.xmax < p1.x)
    (hand : outcode r p1 &&& outcode r p2 = 0) :
    meas r q p2 < meas r p1 p2 := by
  have hqxf : ¬ (q.x < r.xmin ∨ r.xmax < q.x) := by
    simp only [not_or, not_lt]; exact ⟨hqx1, hqx2⟩
  unfold meas cnt
  rw [if_neg hqxf, if_pos hx1, if_pos hand]
  by_cases hyq : q.y < r.ymin ∨ r.ymax < q.y
  · by_cases hy1 : p1.y < r.ymin ∨ r.ymax < p1.y
    · rw [if_pos hyq, if_pos hy1]
      split_ifs <;> omega
    · have hone : outcode r q &&& outcode r p2 ≠ 0 := by
        simp only [not_or, not_lt] at hy1
        rcases hyq with hql | hqr
        · have hp2 : p2.y < r.ymin := by
            rcases min_lt_iff.mp (lt_of_le_of_lt hminy hql) with h | h
            · exact absurd h (not_lt.mpr hy1.1)
            · exact h
          exact outcode_and_outcode_ne_zero r q p2 hv1 hv2 (Or.inr (Or.inr (Or.inl ⟨hql, hp2⟩)))
        · have hp2 : r.ymax < p2.y := by
            rcases lt_max_iff.mp (lt_of_lt_of_le hqr hmaxy) with h | h
            · exact absurd h (not_lt.mpr hy1.2)
            · exact h
          exact outcode_and_outcode_ne_zero r q p2 hv1 hv2 (Or.inr (Or.inr (Or.inr ⟨hqr, hp2⟩)))
      rw [if_pos hyq, if_neg hy1, if_neg hone]
      split_ifs <;> omega
  · rw [if_neg hyq]
    split_ifs <;> omega

/-- Core of the measure decrease, `p2`-replacement, `y`-pinned form (here
`p1` is already inside the rectangle, so its violation count is 0). -/
lemma meas_lt_of_ypinned_p2 (r : Rect) (p1 p2 q : Point)
    (hqy1 : r.ymin ≤ q.y) (hqy2 : q.y ≤ r.ymax)
    (hminx : min p1.x p2.x ≤ q.x) (hmaxx : q.x ≤ max p1.x p2.x)
    (hx1a : r.xmin ≤ p1.x) (hx1b : p1.x ≤ r.xmax)
    (hy2 : p2.y < r.ymin ∨ r.ymax < p2.y)
    (hand : outcode r p1 &&& outcode r p2 = 0) :
    meas r p1 q < meas r p1 p2 := by
  have hqyf : ¬ (q.y < r.ymin ∨ r.ymax < q.y) := by
    simp only [not_or, not_lt]; exact ⟨hqy1, hqy2⟩
  unfold meas cnt
  rw [if_neg hqyf, if_pos hy2, if_pos hand]
  by_cases hxq : q.x < r.xmin ∨ r.xmax < q.x
  · have hx2 : p2.x < r.xmin ∨ r.xmax < p2.x := by
      rcases hxq with hql | hqr
      · left
        rcases min_lt_iff.mp (lt_of_le_of_lt hminx hql) with h | h
        · exact absurd h (not_lt.mpr hx1a)
        · exact h
      · right
        rcases lt_max_iff.mp (lt_of_lt_of_le hqr hmaxx) with h | h
        · exact absurd h (not_lt.mpr hx1b)
        · exact h
    rw [if_pos hxq, if_pos hx2]
    split_ifs <;> omega
  · rw [if_neg hxq]
    split_ifs <;> omega

/-- Core of the measure decrease, `p2`-replacement, `x`-pinned form. -/
lemma meas_lt_of_xpinned_p2 (r : Rect) (p1 p2 q : Point)
    (hqx1 : r.xmin ≤ q.x) (hqx2 : q.x ≤ r.xmax)
    (hminy : min p1.y p2.y ≤ q.y) (hmaxy : q.y ≤ max p1.y p2.y)
    (hy1a : r.ymin ≤ p1.y) (hy1b : p1.y ≤ r.ymax)
    (hx2 : p2.x < r.xmin ∨ r.xmax < p2.x)
    (hand : outcode r p1 &&& outcode r p2 = 0) :
    meas r p1 q < meas r p1 p2 := by
  have hqxf : ¬ (q.x < r.xmin ∨ r.xmax < q.x) := by
    simp only [not_or, not_lt]; exact ⟨hqx1, hqx2⟩
  unfold meas cnt
  rw [if_neg hqxf, if_pos hx2, if_pos hand]
  by_cases hyq : q.y < r.ymin ∨ r.ymax < q.y
  · have hy2 : p2.y < r.ymin ∨ r.ymax < p2.y := by
      rcases hyq with hql | hqr
      · left
        rcases min_lt_iff.mp (lt_of_le_of_lt hminy hql) with h | h
        · exact absurd h (not_lt.mpr hy1a)
        · exact h
      · right
        rcases lt_max_iff.mp (lt_of_lt_of_le hqr hmaxy) with h | h
        · exact absurd h (not_lt.mpr hy1b)
        · exact h
    rw [if_pos hyq, if_pos hy2]
    split_ifs <;> omega
  · rw [if_neg hyq]
    split_ifs <;> omega

/-! ### The measure decreases at every clipping iteration -/

lemma csClipAux_succ (r : Rect) (fuel : Nat) (p1 p2 : Point) :
    csClipAux r (fuel + 1) p1 p2 =
      if outcode r p1 = 0 ∧ outcode r p2 = 0 then
        some (some ⟨p1, p2⟩)
      else if outcode r p1 &&& outcode r p2 ≠ 0 then
        some none
      else if outcode r p1 ≠ 0 then
        csClipAux r fuel (clipPoint r p1 p2 (outcode r p1)) p2
      else
        csClipAux r fuel p1 (clipPoint r p1 p2 (outcode r p2)) := rfl

lemma cnt_mk_le_one_y (r : Rect) (a b : ℚ) (h1 : r.ymin ≤ b) (h2 : b ≤ r.ymax) :
    cnt r ⟨a, b⟩ ≤ 1 := by
  unfold cnt
  dsimp only
  have hy : ¬ (b < r.ymin ∨ r.ymax < b) := by simp only [not_or, not_lt]; exact ⟨h1, h2⟩
  rw [if_neg hy]
  split_ifs <;> norm_num

lemma cnt_mk_le_one_x (r : Rect) (a b : ℚ) (h1 : r.xmin ≤ a) (h2 : a ≤ r.xmax) :
    cnt r ⟨a, b⟩ ≤ 1 := by
  unfold cnt
  dsimp only
  have hx : ¬ (a < r.xmin ∨ r.xmax < a) := by simp only [not_or, not_lt]; exact ⟨h1, h2⟩
  rw [if_neg hx]
  split_ifs <;> norm_num

/-- Any clipped point lies exactly on one of the four boundary lines, so it
violates at most one axis. -/
lemma cnt_clipPoint_le_one (r : Rect) (hv1 : r.xmin ≤ r.xmax) (hv2 : r.ymin ≤ r.ymax)
    (p1 p2 : Point) (out : Nat) : cnt r (clipPoint r p1 p2 out) ≤ 1 := by
  unfold clipPoint
  split_ifs
  · exact cnt_mk_le_one_y r _ r.ymax hv2 (le_refl _)
  · exact cnt_mk_le_one_y r _ r.ymin (le_refl _) hv2
  · exact cnt_mk_le_one_x r r.xmax _ hv1 (le_refl _)
  · exact cnt_mk_le_one_x r r.xmin _ (le_refl _) hv1

/-- Replacing the outside endpoint `p1` by the clipped point strictly
decreases the loop measure. -/
lemma meas_decrease_p1 (r : Rect) (p1 p2 : Point)
    (hv1 : r.xmin ≤ r.xmax) (hv2 : r.ymin ≤ r.ymax)
    (hc1 : outcode r p1 ≠ 0) (hand : outcode r p1 &&& outcode r p2 = 0) :
    meas r (clipPoint r p1 p2 (outcode r p1)) p2 < meas r p1 p2 := by
  by_cases h8 : outcode r p1 &&& 8 = 0
  · by_cases h4 : outcode r p1 &&& 4 = 0
    · by_cases h2 : outcode r p1 &&& 2 = 0
      · -- LEFT branch
        have h1 : outcode r p1 &&& 1 ≠ 0 := by
          rcases outcode_cases_bits r p1 with hz | hb | hb | hb | hb
          · exact absurd hz hc1
          · exact absurd h8 hb
          · exact absurd h4 hb
          · exact absurd h2 hb
          · exact hb
        have hx1 : p1.x < r.xmin := (outcode_and_one r p1).mp h1
        have hx2 : r.xmin ≤ p2.x := by
          by_contra hcon
          push_neg at hcon
          exact outcode_and_outcode_ne_zero r p1 p2 hv1 hv2 (Or.inl ⟨hx1, hcon⟩) hand
        have hlt : p1.x < p2.x := lt_of_lt_of_le hx1 hx2
        have hden : p2.x - p1.x ≠ 0 := by
          intro h0
          rw [sub_eq_zero] at h0
          exact absurd h0.symm (ne_of_lt hlt)
        obtain ⟨ht0, ht1⟩ := ratio_unit_pos r.xmin p1.x p2.x (le_of_lt hx1) hx2 hlt
        have heq := interp_x_eq p1 p2 r.xmin hden
        have hbet := interp_y_between p1 p2 ((r.xmin - p1.x) / (p2.x - p1.x)) ht0 ht1
        rw [clipPoint_eq_interp_left r p1 p2 (outcode r p1) h8 h4 h2 hden]
        exact meas_lt_of_xpinned_p1 r p1 p2 _ hv1 hv2 (le_of_eq heq.symm)
          (by rw [heq]; exact hv1) hbet.1 hbet.2 (Or.inl hx1) hand
      · -- RIGHT branch
        obtain ⟨hx1n, hx1⟩ := (outcode_and_two r p1).mp h2
        have hx2 : p2.x ≤ r.xmax := by
          by_contra hcon
          push_neg at hcon
          exact outcode_and_outcode_ne_zero r p1 p2 hv1 hv2
            (Or.inr (Or.inl ⟨hx1, hcon⟩)) hand
        have hlt : p2.x < p1.x := lt_of_le_of_lt hx2 hx1
        have hden : p2.x - p1.x ≠ 0 := by
          intro h0
          rw [sub_eq_zero] at h0
          exact absurd h0 (ne_of_lt hlt)
        obtain ⟨ht0, ht1⟩ := ratio_unit_neg r.xmax p1.x p2.x (le_of_lt hx1) hx2 hlt
        have heq := interp_x_eq p1 p2 r.xmax hden
        have hbet := interp_y_between p1 p2 ((r.xmax - p1.x) / (p2.x - p1.x)) ht0 ht1
        rw [clipPoint_eq_interp_right r p1 p2 (outcode r p1) h8 h4 h2 hden]
        exact meas_lt_of_xpinned_p1 r p1 p2 _ hv1 hv2 (by rw [heq]; exact hv1)
          (le_of_eq heq) hbet.1 hbet.2 (Or.inr hx1) hand
    · -- BOTTOM branch
      have hy1 : p1.y < r.ymin := (outcode_and_four r p1).mp h4
      have hy2 : r.ymin ≤ p2.y := by
        by_contra hcon
        push_neg at hcon
        exact outcode_and_outcode_ne_zero r p1 p2 hv1 hv2
          (Or.inr (Or.inr (Or.inl ⟨hy1, hcon⟩))) hand
      have hlt : p1.y < p2.y := lt_of_lt_of_le hy1 hy2
      have hden : p2.y - p1.y ≠ 0 := by
        intro h0
        rw [sub_eq_zero] at h0
        exact absurd h0.symm (ne_of_lt hlt)
      obtain ⟨ht0, ht1⟩ := ratio_unit_pos r.ymin p1.y p2.y (le_of_lt hy1) hy2 hlt
      have heq := interp_y_eq p1 p2 r.ymin hden
      have hbet := interp_x_between p1 p2 ((r.ymin - p1.y) / (p2.y - p1.y)) ht0 ht1
      rw [clipPoint_eq_interp_bottom r p1 p2 (outcode r p1) h8 h4 hden]
      exact meas_lt_of_ypinned_p1 r p1 p2 _ hv1 hv2 (le_of_eq heq.symm)
        (by rw [heq]; exact hv2) hbet.1 hbet.2 (Or.inl hy1) hand
  · -- TOP branch
    obtain ⟨hy1n, hy1⟩ := (outcode_and_eight r p1).mp h8
    have hy2 : p2.y ≤ r.ymax := by
      by_contra hcon
      push_neg at hcon
      exact outcode_and_outcode_ne_zero r p1 p2 hv1 hv2
        (Or.inr (Or.inr (Or.inr ⟨hy1, hcon⟩))) hand
    have hlt : p2.y < p1.y := lt_of_le_of_lt hy2 hy1
    have hden : p2.y - p1.y ≠ 0 := by
      intro h0
      rw [sub_eq_zero] at h0
      exact absurd h0 (ne_of_lt hlt)
    obtain ⟨ht0, ht1⟩ := ratio_unit_neg r.ymax p1.y p2.y (le_of_lt hy1) hy2 hlt
    have heq := interp_y_eq p1 p2 r.ymax hden
    have hbet := interp_x_between p1 p2 ((r.ymax - p1.y) / (p2.y - p1.y)) ht0 ht1
    rw [clipPoint_eq_interp_top r p1 p2 (outcode r p1) h8 hden]
    exact meas_lt_of_ypinned_p1 r p1 p2 _ hv1 hv2 (by rw [heq]; exact hv2)
      (le_of_eq heq) hbet.1 hbet.2 (Or.inr hy1) hand

/-- Replacing the outside endpoint `p2` by the clipped point strictly
decreases the loop measure (here `p1` is inside the rectangle). -/
lemma meas_decrease_p2 (r : Rect) (p1 p2 : Point)
    (hv1 : r.xmin ≤ r.xmax) (hv2 : r.ymin ≤ r.ymax)
    (hc1 : outcode r p1 = 0) (hc2 : outcode r p2 ≠ 0) :
    meas r p1 (clipPoint r p1 p2 (outcode r p2)) < meas r p1 p2 := by
  obtain ⟨ha, hb, hc, hd⟩ := (outcode_eq_zero_iff r p1).mp hc1
  have hand : outcode r p1 &&& outcode r p2 = 0 := by
    rw [hc1]; exact Nat.zero_and _
  by_cases h8 : outcode r p2 &&& 8 = 0
  · by_cases h4 : outcode r p2 &&& 4 = 0
    · by_cases h2 : outcode r p2 &&& 2 = 0
      · -- LEFT branch
        have h1 : outcode r p2 &&& 1 ≠ 0 := by
          rcases outcode_cases_bits r p2 with hz | hbb | hbb | hbb | hbb
          · exact absurd hz hc2
          · exact absurd h8 hbb
          · exact absurd h4 hbb
          · exact absurd h2 hbb
          · exact hbb
        have hx2 : p2.x < r.xmin := (outcode_and_one r p2).mp h1
        have hlt : p2.x < p1.x := lt_of_lt_of_le hx2 ha
        have hden : p2.x - p1.x ≠ 0 := by
          intro h0
          rw [sub_eq_zero] at h0
          exact absurd h0 (ne_of_lt hlt)
        obtain ⟨ht0, ht1⟩ := ratio_unit_neg r.xmin p1.x p2.x ha (le_of_lt hx2) hlt
        have heq := interp_x_eq p1 p2 r.xmin hden
        have hbet := interp_y_between p1 p2 ((r.xmin - p1.x) / (p2.x - p1.x)) ht0 ht1
        rw [clipPoint_eq_interp_left r p1 p2 (outcode r p2) h8 h4 h2 hden]
        exact meas_lt_of_xpinned_p2 r p1 p2 _ (le_of_eq heq.symm)
          (by rw [heq]; exact hv1) hbet.1 hbet.2 hc hd (Or.inl hx2) hand
      · -- RIGHT branch
        obtain ⟨hx2n, hx2⟩ := (outcode_and_two r p2).mp h2
        have hlt : p1.x < p2.x := lt_of_le_of_lt hb hx2
        have hden : p2.x - p1.x ≠ 0 := by
          intro h0
          rw [sub_eq_zero] at h0
          exact absurd h0.symm (ne_of_lt hlt)
        obtain ⟨ht0, ht1⟩ := ratio_unit_pos r.xmax p1.x p2.x hb (le_of_lt hx2) hlt
        have heq := interp_x_eq p1 p2 r.xmax hden
        have hbet := interp_y_between p1 p2 ((r.xmax - p1.x) / (p2.x - p1.x)) ht0 ht1
        rw [clipPoint_eq_interp_right r p1 p2 (outcode r p2) h8 h4 h2 hden]
        exact meas_lt_of_xpinned_p2 r p1 p2 _ (by rw [heq]; exact hv1)
          (le_of_eq heq) hbet.1 hbet.2 hc hd (Or.inr hx2) hand
    · -- BOTTOM branch
      have hy2 : p2.y < r.ymin := (outcode_and_four r p2).mp h4
      have hlt : p2.y < p1.y := lt_of_lt_of_le hy2 hc
      have hden : p2.y - p1.y ≠ 0 := by
        intro h0
        rw [sub_eq_zero] at h0
        exact absurd h0 (ne_of_lt hlt)
      obtain ⟨ht0, ht1⟩ := ratio_unit_neg r.ymin p1.y p2.y hc (le_of_lt hy2) hlt
      have heq := interp_y_eq p1 p2 r.ymin hden
      have hbet := interp_x_between p1 p2 ((r.ymin - p1.y) / (p2.y - p1.y)) ht0 ht1
      rw [clipPoint_eq_interp_bottom r p1 p2 (outcode r p2) h8 h4 hden]
      exact meas_lt_of_ypinned_p2 r p1 p2 _ (le_of_eq heq.symm)
        (by rw [heq]; exact hv2) hbet.1 hbet.2 ha hb (Or.inl hy2) hand
  · -- TOP branch
    obtain ⟨hy2n, hy2⟩ := (outcode_and_eight r p2).mp h8
    have hlt : p1.y < p2.y := lt_of_le_of_lt hd hy2
    have hden : p2.y - p1.y ≠ 0 := by
      intro h0
      rw [sub_eq_zero] at h0
      exact absurd h0.symm (ne_of_lt hlt)
    obtain ⟨ht0, ht1⟩ := ratio_unit_pos r.ymax p1.y p2.y hd (le_of_lt hy2) hlt
    have heq := interp_y_eq p1 p2 r.ymax hden
    have hbet := interp_x_between p1 p2 ((r.ymax - p1.y) / (p2.y - p1.y)) ht0 ht1
    rw [clipPoint_eq_interp_top r p1 p2 (outcode r p2) h8 hden]
    exact meas_lt_of_ypinned_p2 r p1 p2 _ (by rw [heq]; exact hv2)
      (le_of_eq heq) hbet.1 hbet.2 ha hb (Or.inr hy2) hand

/-! ### Termination of the clipping loop -/

lemma csClipAux_isSome_of_meas_lt (r : Rect)
    (hv1 : r.xmin ≤ r.xmax) (hv2 : r.ymin ≤ r.ymax) :
    ∀ fuel p1 p2, meas r p1 p2 < fuel → (csClipAux r fuel p1 p2).isSome = true := by
  intro fuel
  induction fuel with
  | zero =>
    intro p1 p2 h
    exact absurd h (Nat.not_lt_zero _)
  | succ n ih =>
    intro p1 p2 h
    rw [csClipAux_succ]
    by_cases hA : outcode r p1 = 0 ∧ outcode r p2 = 0
    · rw [if_pos hA]; rfl
    · rw [if_neg hA]
      by_cases hB : outcode r p1 &&& outcode r p2 ≠ 0
      · rw [if_pos hB]; rfl
      · rw [if_neg hB]
        by_cases hc1 : outcode r p1 ≠ 0
        · rw [if_pos hc1]
          apply ih
          have hd := meas_decrease_p1 r p1 p2 hv1 hv2 hc1 (not_not.mp hB)
          omega
        · rw [if_neg hc1]
          have hc1z : outcode r p1 = 0 := not_not.mp hc1
          have hc2 : outcode r p2 ≠ 0 := fun hz => hA ⟨hc1z, hz⟩
          apply ih
          have hd := meas_decrease_p2 r p1 p2 hv1 hv2 hc1z hc2
          omega

/-- The `while True:` loop of `cohen_sutherland_clip` returns within 9 loop
entries (hence at most 8 clipping iterations in total, at most 4 per
endpoint) for every valid rectangle: fuel 9 is never exhausted. -/
lemma csClipAux_fuel9_isSome (r : Rect)
    (hv1 : r.xmin ≤ r.xmax) (hv2 : r.ymin ≤ r.ymax) (p1 p2 : Point) :
    (csClipAux r 9 p1 p2).isSome = true := by
  rw [show (9 : Nat) = 8 + 1 from rfl, csClipAux_succ]
  by_cases hA : outcode r p1 = 0 ∧ outcode r p2 = 0
  · rw [if_pos hA]; rfl
  · rw [if_neg hA]
    by_cases hB : outcode r p1 &&& outcode r p2 ≠ 0
    · rw [if_pos hB]; rfl
    · rw [if_neg hB]
      by_cases hc1 : outcode r p1 ≠ 0
      · rw [if_pos hc1]
        apply csClipAux_isSome_of_meas_lt r hv1 hv2
        have hq := cnt_clipPoint_le_one r hv1 hv2 p1 p2 (outcode r p1)
        have hp2 := cnt_le_two r p2
        unfold meas
        split_ifs <;> omega
      · rw [if_neg hc1]
        apply csClipAux_isSome_of_meas_lt r hv1 hv2
        have hq := cnt_clipPoint_le_one r hv1 hv2 p1 p2 (outcode r p2)
        have hp1 := cnt_le_two r p1
        unfold meas
        split_ifs <;> omega

/-! ### The loop invariant: the working segment carves out the same inside
portion as the original segment -/

lemma interp_left_reparam (p1 p2 : Point) (t0 u : ℚ) :
    interp (interp p1 p2 t0) p2 u = interp p1 p2 (t0 + (1 - t0) * u) := by
  have h := interp_interp p1 p2 t0 1 u
  rw [interp_one] at h
  rw [h]

lemma interp_right_reparam (p1 p2 : Point) (t0 u : ℚ) :
    interp p1 (interp p1 p2 t0) u = interp p1 p2 (t0 * u) := by
  have h := interp_interp p1 p2 0 t0 u
  rw [interp_zero] at h
  rw [h]
  congr 1
  ring

/-- Replacing `p1` by a point of the segment at parameter `t0` preserves the
invariant, provided everything strictly before `t0` is outside the
rectangle. -/
lemma segEquiv_shrink_left (r : Rect) (s0 : Segment) (p1 p2 q : Point) (t0 : ℚ)
    (h0 : 0 ≤ t0) (h1 : t0 ≤ 1) (hq : q = interp p1 p2 t0)
    (hout : ∀ s : ℚ, 0 ≤ s → s ≤ 1 → s < t0 → ¬ inRect r (interp p1 p2 s))
    (hinv : SegEquiv r s0 p1 p2) : SegEquiv r s0 q p2 := by
  obtain ⟨hp1, hp2, hiff⟩ := hinv
  have hqseg : onSeg ⟨p1, p2⟩ q := ⟨t0, h0, h1, hq⟩
  have hq0 : onSeg s0 q := onSeg_trans s0 p1 p2 hp1 hp2 q hqseg
  refine ⟨hq0, hp2, ?_⟩
  intro p hpin
  constructor
  · intro hp
    exact (hiff p hpin).mp
      (onSeg_trans ⟨p1, p2⟩ q p2 hqseg (onSeg_p2 ⟨p1, p2⟩) p hp)
  · intro hp
    obtain ⟨s, hs0, hs1, hps⟩ := (hiff p hpin).mpr hp
    have hst : t0 ≤ s := by
      by_contra hcon
      push_neg at hcon
      exact hout s hs0 hs1 hcon (hps ▸ hpin)
    by_cases ht1 : t0 = 1
    · have hs : s = 1 := le_antisymm hs1 (ht1 ▸ hst)
      refine ⟨1, by norm_num, le_refl 1, ?_⟩
      rw [interp_one]
      show p = p2
      rw [hps, hs, interp_one]
    · have ht1' : t0 < 1 := lt_of_le_of_ne h1 ht1
      have hpos : 0 < 1 - t0 := by linarith
      refine ⟨(s - t0) / (1 - t0), div_nonneg (by linarith) (by linarith), ?_, ?_⟩
      · rw [div_le_one hpos]; linarith
      · show p = interp q p2 ((s - t0) / (1 - t0))
        rw [hq, interp_left_reparam]
        have harg : t0 + (1 - t0) * ((s - t0) / (1 - t0)) = s := by
          rw [mul_comm, div_mul_cancel₀ _ (ne_of_gt hpos)]
          ring
        rw [harg]
        exact hps

/-- Replacing `p2` by a point of the segment at parameter `t0` preserves the
invariant, provided everything strictly after `t0` is outside the
rectangle. -/
lemma segEquiv_shrink_right (r : Rect) (s0 : Segment) (p1 p2 q : Point) (t0 : ℚ)
    (h0 : 0 ≤ t0) (h1 : t0 ≤ 1) (hq : q = interp p1 p2 t0)
    (hout : ∀ s : ℚ, 0 ≤ s → s ≤ 1 → t0 < s → ¬ inRect r (interp p1 p2 s))
    (hinv : SegEquiv r s0 p1 p2) : SegEquiv r s0 p1 q := by
  obtain ⟨hp1, hp2, hiff⟩ := hinv
  have hqseg : onSeg ⟨p1, p2⟩ q := ⟨t0, h0, h1, hq⟩
  have hq0 : onSeg s0 q := onSeg_trans s0 p1 p2 hp1 hp2 q hqseg
  refine ⟨hp1, hq0, ?_⟩
  intro p hpin
  constructor
  · intro hp
    exact (hiff p hpin).mp
      (onSeg_trans ⟨p1, p2⟩ p1 q (onSeg_p1 ⟨p1, p2⟩) hqseg p hp)
  · intro hp
    obtain ⟨s, hs0, hs1, hps⟩ := (hiff p hpin).mpr hp
    have hst : s ≤ t0 := by
      by_contra hcon
      push_neg at hcon
      exact hout s hs0 hs1 hcon (hps ▸ hpin)
    by_cases ht0 : t0 = 0
    · have hs : s = 0 := le_antisymm (ht0 ▸ hst) hs0
      refine ⟨0, le_refl 0, by norm_num, ?_⟩
      rw [interp_zero]
      show p = p1
      rw [hps, hs, interp_zero]
    · have hpos : 0 < t0 := lt_of_le_of_ne h0 (Ne.symm ht0)
      refine ⟨s / t0, div_nonneg hs0 (le_of_lt hpos), ?_, ?_⟩
      · rw [div_le_one hpos]; exact hst
      · show p = interp p1 q (s / t0)
        rw [hq, interp_right_reparam]
        have harg : t0 * (s / t0) = s := by
          rw [mul_comm, div_mul_cancel₀ _ (ne_of_gt hpos)]
        rw [harg]
        exact hps

/-- Clipping the outside endpoint `p1` preserves the loop invariant: the
discarded piece of the working segment is entirely outside the rectangle. -/
lemma segEquiv_clipPoint_p1 (r : Rect) (s0 : Segment) (p1 p2 : Point)
    (hv1 : r.xmin ≤ r.xmax) (hv2 : r.ymin ≤ r.ymax)
    (hc1 : outcode r p1 ≠ 0) (hand : outcode r p1 &&& outcode r p2 = 0)
    (hinv : SegEquiv r s0 p1 p2) :
    SegEquiv r s0 (clipPoint r p1 p2 (outcode r p1)) p2 := by
  by_cases h8 : outcode r p1 &&& 8 = 0
  · by_cases h4 : outcode r p1 &&& 4 = 0
    · by_cases h2 : outcode r p1 &&& 2 = 0
      · -- LEFT branch
        have h1 : outcode r p1 &&& 1 ≠ 0 := by
          rcases outcode_cases_bits r p1 with hz | hb | hb | hb | hb
          · exact absurd hz hc1
          · exact absurd h8 hb
          · exact absurd h4 hb
          · exact absurd h2 hb
          · exact hb
        have hx1 : p1.x < r.xmin := (outcode_and_one r p1).mp h1
        have hx2 : r.xmin ≤ p2.x := by
          by_contra hcon
          push_neg at hcon
          exact outcode_and_outcode_ne_zero r p1 p2 hv1 hv2 (Or.inl ⟨hx1, hcon⟩) hand
        have hlt : p1.x < p2.x := lt_of_lt_of_le hx1 hx2
        have hden : p2.x - p1.x ≠ 0 := by
          intro h0; rw [sub_eq_zero] at h0; exact absurd h0.symm (ne_of_lt hlt)
        obtain ⟨ht0, ht1⟩ := ratio_unit_pos r.xmin p1.x p2.x (le_of_lt hx1) hx2 hlt
        rw [clipPoint_eq_interp_left r p1 p2 (outcode r p1) h8 h4 h2 hden]
        apply segEquiv_shrink_left r s0 p1 p2 _ ((r.xmin - p1.x) / (p2.x - p1.x))
          ht0 ht1 rfl ?_ hinv
        intro s hs0 hs1 hs hin
        obtain ⟨hpx, _, _, _⟩ := hin
        have hxs : (interp p1 p2 s).x = p1.x + (p2.x - p1.x) * s := rfl
        have hmul : (p2.x - p1.x) * ((r.xmin - p1.x) / (p2.x - p1.x)) = r.xmin - p1.x := by
          rw [mul_comm, div_mul_cancel₀ _ hden]
        have hdpos : 0 < p2.x - p1.x := by linarith
        rw [hxs] at hpx
        linarith [mul_lt_mul_of_pos_left hs hdpos, hmul]
      · -- RIGHT branch
        obtain ⟨hx1n, hx1⟩ := (outcode_and_two r p1).mp h2
        have hx2 : p2.x ≤ r.xmax := by
          by_contra hcon
          push_neg at hcon
          exact outcode_and_outcode_ne_zero r p1 p2 hv1 hv2
            (Or.inr (Or.inl ⟨hx1, hcon⟩)) hand
        have hlt : p2.x < p1.x := lt_of_le_of_lt hx2 hx1
        have hden : p2.x - p1.x ≠ 0 := by
          intro h0; rw [sub_eq_zero] at h0; exact absurd h0 (ne_of_lt hlt)
        obtain ⟨ht0, ht1⟩ := ratio_unit_neg r.xmax p1.x p2.x (le_of_lt hx1) hx2 hlt
        rw [clipPoint_eq_interp_right r p1 p2 (outcode r p1) h8 h4 h2 hden]
        apply segEquiv_shrink_left r s0 p1 p2 _ ((r.xmax - p1.x) / (p2.x - p1.x))
          ht0 ht1 rfl ?_ hinv
        intro s hs0 hs1 hs hin
        obtain ⟨_, hpx, _, _⟩ := hin
        have hxs : (interp p1 p2 s).x = p1.x + (p2.x - p1.x) * s := rfl
        have hmul : (p2.x - p1.x) * ((r.xmax - p1.x) / (p2.x - p1.x)) = r.xmax - p1.x := by
          rw [mul_comm, div_mul_cancel₀ _ hden]
        have hdneg : p2.x - p1.x < 0 := by linarith
        rw [hxs] at hpx
        linarith [mul_lt_mul_of_neg_left hs hdneg, hmul]
    · -- BOTTOM branch
      have hy1 : p1.y < r.ymin := (outcode_and_four r p1).mp h4
      have hy2 : r.ymin ≤ p2.y := by
        by_contra hcon
        push_neg at hcon
        exact outcode_and_outcode_ne_zero r p1 p2 hv1 hv2
          (Or.inr (Or.inr (Or.inl ⟨hy1, hcon⟩))) hand
      have hlt : p1.y < p2.y := lt_of_lt_of_le hy1 hy2
      have hden : p2.y - p1.y ≠ 0 := by
        intro h0; rw [sub_eq_zero] at h0; exact absurd h0.symm (ne_of_lt hlt)
      obtain ⟨ht0, ht1⟩ := ratio_unit_pos r.ymin p1.y p2.y (le_of_lt hy1) hy2 hlt
      rw [clipPoint_eq_interp_bottom r p1 p2 (outcode r p1) h8 h4 hden]
      apply segEquiv_shrink_left r s0 p1 p2 _ ((r.ymin - p1.y) / (p2.y - p1.y))
        ht0 ht1 rfl ?_ hinv
      intro s hs0 hs1 hs hin
      obtain ⟨_, _, hpy, _⟩ := hin
      have hys : (interp p1 p2 s).y = p1.y + (p2.y - p1.y) * s := rfl
      have hmul : (p2.y - p1.y) * ((r.ymin - p1.y) / (p2.y - p1.y)) = r.ymin - p1.y := by
        rw [mul_comm, div_mul_cancel₀ _ hden]
      have hdpos : 0 < p2.y - p1.y := by linarith
      rw [hys] at hpy
      linarith [mul_lt_mul_of_pos_left hs hdpos, hmul]
  · -- TOP branch
    obtain ⟨hy1n, hy1⟩ := (outcode_and_eight r p1).mp h8
    have hy2 : p2.y ≤ r.ymax := by
      by_contra hcon
      push_neg at hcon
      exact outcode_and_outcode_ne_zero r p1 p2 hv1 hv2
        (Or.inr (Or.inr (Or.inr ⟨hy1, hcon⟩))) hand
    have hlt : p2.y < p1.y := lt_of_le_of_lt hy2 hy1
    have hden : p2.y - p1.y ≠ 0 := by
      intro h0; rw [sub_eq_zero] at h0; exact absurd h0 (ne_of_lt hlt)
    obtain ⟨ht0, ht1⟩ := ratio_unit_neg r.ymax p1.y p2.y (le_of_lt hy1) hy2 hlt
    rw [clipPoint_eq_interp_top r p1 p2 (outcode r p1) h8 hden]
    apply segEquiv_shrink_left r s0 p1 p2 _ ((r.ymax - p1.y) / (p2.y - p1.y))
      ht0 ht1 rfl ?_ hinv
    intro s hs0 hs1 hs hin
    obtain ⟨_, _, _, hpy⟩ := hin
    have hys : (interp p1 p2 s).y = p1.y + (p2.y - p1.y) * s := rfl
    have hmul : (p2.y - p1.y) * ((r.ymax - p1.y) / (p2.y - p1.y)) = r.ymax - p1.y := by
      rw [mul_comm, div_mul_cancel₀ _ hden]
    have hdneg : p2.y - p1.y < 0 := by linarith
    rw [hys] at hpy
    linarith [mul_lt_mul_of_neg_left hs hdneg, hmul]

/-- Clipping the outside endpoint `p2` preserves the loop invariant. -/
lemma segEquiv_clipPoint_p2 (r : Rect) (s0 : Segment) (p1 p2 : Point)
    (hv1 : r.xmin ≤ r.xmax) (hv2 : r.ymin ≤ r.ymax)
    (hc1 : outcode r p1 = 0) (hc2 : outcode r p2 ≠ 0)
    (hinv : SegEquiv r s0 p1 p2) :
    SegEquiv r s0 p1 (clipPoint r p1 p2 (outcode r p2)) := by
  obtain ⟨ha, hb, hc, hd⟩ := (outcode_eq_zero_iff r p1).mp hc1
  by_cases h8 : outcode r p2 &&& 8 = 0
  · by_cases h4 : outcode r p2 &&& 4 = 0
    · by_cases h2 : outcode r p2 &&& 2 = 0
      · -- LEFT branch
        have h1 : outcode r p2 &&& 1 ≠ 0 := by
          rcases outcode_cases_bits r p2 with hz | hbb | hbb | hbb | hbb
          · exact absurd hz hc2
          · exact absurd h8 hbb
          · exact absurd h4 hbb
          · exact absurd h2 hbb
          · exact hbb
        have hx2 : p2.x < r.xmin := (outcode_and_one r p2).mp h1
        have hlt : p2.x < p1.x := lt_of_lt_of_le hx2 ha
        have hden : p2.x - p1.x ≠ 0 := by
          intro h0; rw [sub_eq_zero] at h0; exact absurd h0 (ne_of_lt hlt)
        obtain ⟨ht0, ht1⟩ := ratio_unit_neg r.xmin p1.x p2.x ha (le_of_lt hx2) hlt
        rw [clipPoint_eq_interp_left r p1 p2 (outcode r p2) h8 h4 h2 hden]
        apply segEquiv_shrink_right r s0 p1 p2 _ ((r.xmin - p1.x) / (p2.x - p1.x))
          ht0 ht1 rfl ?_ hinv
        intro s hs0 hs1 hs hin
        obtain ⟨hpx, _, _, _⟩ := hin
        have hxs : (interp p1 p2 s).x = p1.x + (p2.x - p1.x) * s := rfl
        have hmul : (p2.x - p1.x) * ((r.xmin - p1.x) / (p2.x - p1.x)) = r.xmin - p1.x := by
          rw [mul_comm, div_mul_cancel₀ _ hden]
        have hdneg : p2.x - p1.x < 0 := by linarith
        rw [hxs] at hpx
        linarith [mul_lt_mul_of_neg_left hs hdneg, hmul]
      · -- RIGHT branch
        obtain ⟨hx2n, hx2⟩ := (outcode_and_two r p2).mp h2
        have hlt : p1.x < p2.x := lt_of_le_of_lt hb hx2
        have hden : p2.x - p1.x ≠ 0 := by
          intro h0; rw [sub_eq_zero] at h0; exact absurd h0.symm (ne_of_lt hlt)
        obtain ⟨ht0, ht1⟩ := ratio_unit_pos r.xmax p1.x p2.x hb (le_of_lt hx2) hlt
        rw [clipPoint_eq_interp_right r p1 p2 (outcode r p2) h8 h4 h2 hden]
        apply segEquiv_shrink_right r s0 p1 p2 _ ((r.xmax - p1.x) / (p2.x - p1.x))
          ht0 ht1 rfl ?_ hinv
        intro s hs0 hs1 hs hin
        obtain ⟨_, hpx, _, _⟩ := hin
        have hxs : (interp p1 p2 s).x = p1.x + (p2.x - p1.x) * s := rfl
        have hmul : (p2.x - p1.x) * ((r.xmax - p1.x) / (p2.x - p1.x)) = r.xmax - p1.x := by
          rw [mul_comm, div_mul_cancel₀ _ hden]
        have hdpos : 0 < p2.x - p1.x := by linarith
        rw [hxs] at hpx
        linarith [mul_lt_mul_of_pos_left hs hdpos, hmul]
    · -- BOTTOM branch
      have hy2v : p2.y < r.ymin := (outcode_and_four r p2).mp h4
      have hlt : p2.y < p1.y := lt_of_lt_of_le hy2v hc
      have hden : p2.y - p1.y ≠ 0 := by
        intro h0; rw [sub_eq_zero] at h0; exact absurd h0 (ne_of_lt hlt)
      obtain ⟨ht0, ht1⟩ := ratio_unit_neg r.ymin p1.y p2.y hc (le_of_lt hy2v) hlt
      rw [clipPoint_eq_interp_bottom r p1 p2 (outcode r p2) h8 h4 hden]
      apply segEquiv_shrink_right r s0 p1 p2 _ ((r.ymin - p1.y) / (p2.y - p1.y))
        ht0 ht1 rfl ?_ hinv
      intro s hs0 hs1 hs hin
      obtain ⟨_, _, hpy, _⟩ := hin
      have hys : (interp p1 p2 s).y = p1.y + (p2.y - p1.y) * s := rfl
      have hmul : (p2.y - p1.y) * ((r.ymin - p1.y) / (p2.y - p1.y)) = r.ymin - p1.y := by
        rw [mul_comm, div_mul_cancel₀ _ hden]
      have hdneg : p2.y - p1.y < 0 := by linarith
      rw [hys] at hpy
      linarith [mul_lt_mul_of_neg_left hs hdneg, hmul]
  · -- TOP branch
    obtain ⟨hy2n, hy2⟩ := (outcode_and_eight r p2).mp h8
    have hlt : p1.y < p2.y := lt_of_le_of_lt hd hy2
    have hden : p2.y - p1.y ≠ 0 := by
      intro h0; rw [sub_eq_zero] at h0; exact absurd h0.symm (ne_of_lt hlt)
    obtain ⟨ht0, ht1⟩ := ratio_unit_pos r.ymax p1.y p2.y hd (le_of_lt hy2) hlt
    rw [clipPoint_eq_interp_top r p1 p2 (outcode r p2) h8 hden]
    apply segEquiv_shrink_right r s0 p1 p2 _ ((r.ymax - p1.y) / (p2.y - p1.y))
      ht0 ht1 rfl ?_ hinv
    intro s hs0 hs1 hs hin
    obtain ⟨_, _, _, hpy⟩ := hin
    have hys : (interp p1 p2 s).y = p1.y + (p2.y - p1.y) * s := rfl
    have hmul : (p2.y - p1.y) * ((r.ymax - p1.y) / (p2.y - p1.y)) = r.ymax - p1.y := by
      rw [mul_comm, div_mul_cancel₀ _ hden]
    have hdpos : 0 < p2.y - p1.y := by linarith
    rw [hys] at hpy
    linarith [mul_lt_mul_of_pos_left hs hdpos, hmul]

/-- Full correctness of the clipping loop relative to the invariant: when it
accepts, the returned segment is exactly the inside portion of the original
segment; when it rejects, no point of the original segment is inside. -/
lemma csClipAux_post (r : Rect) (hv1 : r.xmin ≤ r.xmax) (hv2 : r.ymin ≤ r.ymax)
    (s0 : Segment) :
    ∀ fuel p1 p2, SegEquiv r s0 p1 p2 →
      ∀ res, csClipAux r fuel p1 p2 = some res →
        (∀ s', res = some s' →
          inRect r s'.p1 ∧ inRect r s'.p2 ∧ onSeg s0 s'.p1 ∧ onSeg s0 s'.p2 ∧
          (∀ p, onSeg s' p ↔ (onSeg s0 p ∧ inRect r p))) ∧
        (res = none → ∀ p, onSeg s0 p → ¬ inRect r p) := by
  intro fuel
  induction fuel with
  | zero =>
    intro p1 p2 _ res hres
    exact Option.noConfusion hres
  | succ n ih =>
    intro p1 p2 hinv res hres
    rw [csClipAux_succ] at hres
    by_cases hA : outcode r p1 = 0 ∧ outcode r p2 = 0
    · rw [if_pos hA] at hres
      obtain rfl := Option.some.inj hres
      have hin1 : inRect r p1 := (outcode_eq_zero_iff r p1).mp hA.1
      have hin2 : inRect r p2 := (outcode_eq_zero_iff r p2).mp hA.2
      obtain ⟨hsg1, hsg2, hiff⟩ := hinv
      constructor
      · intro s' hs'
        obtain rfl : (⟨p1, p2⟩ : Segment) = s' := Option.some.inj hs'
        refine ⟨hin1, hin2, hsg1, hsg2, ?_⟩
        intro p
        constructor
        · intro hp
          have hpin : inRect r p := by
            obtain ⟨t, ht0, ht1, hpt⟩ := hp
            rw [hpt]
            exact inRect_interp r p1 p2 t hin1 hin2 ht0 ht1
          exact ⟨(hiff p hpin).mp hp, hpin⟩
        · intro hp
          exact (hiff p hp.2).mpr hp.1
      · intro hcon
        exact Option.noConfusion hcon
    · rw [if_neg hA] at hres
      by_cases hB : outcode r p1 &&& outcode r p2 ≠ 0
      · rw [if_pos hB] at hres
        obtain rfl := Option.some.inj hres
        constructor
        · intro s' hs'
          exact Option.noConfusion hs'
        · intro _ p hp hpin
          obtain ⟨hsg1, hsg2, hiff⟩ := hinv
          obtain ⟨t, ht0, ht1, hpt⟩ := (hiff p hpin).mpr hp
          obtain ⟨hpa, hpb, hpc, hpd⟩ := hpin
          rw [hpt] at hpa hpb hpc hpd
          rcases outcode_and_outcode_cases r p1 p2 hB with ⟨u1, u2⟩ | ⟨u1, u2⟩ | ⟨u1, u2⟩ | ⟨u1, u2⟩
          · have hbx := (interp_x_between p1 p2 t ht0 ht1).2
            have hmx : max p1.x p2.x < r.xmin := max_lt u1 u2
            linarith
          · have hbx := (interp_x_between p1 p2 t ht0 ht1).1
            have hmx : r.xmax < min p1.x p2.x := lt_min u1 u2
            linarith
          · have hby := (interp_y_between p1 p2 t ht0 ht1).2
            have hmy : max p1.y p2.y < r.ymin := max_lt u1 u2
            linarith
          · have hby := (interp_y_between p1 p2 t ht0 ht1).1
            have hmy : r.ymax < min p1.y p2.y := lt_min u1 u2
            linarith
      · rw [if_neg hB] at hres
        have hand := not_not.mp hB
        by_cases hc1 : outcode r p1 ≠ 0
        · rw [if_pos hc1] at hres
          exact ih (clipPoint r p1 p2 (outcode r p1)) p2
            (segEquiv_clipPoint_p1 r s0 p1 p2 hv1 hv2 hc1 hand hinv) res hres
        · rw [if_neg hc1] at hres
          have hc1z : outcode r p1 = 0 := not_not.mp hc1
          have hc2 : outcode r p2 ≠ 0 := fun hz => hA ⟨hc1z, hz⟩
          exact ih p1 (clipPoint r p1 p2 (outcode r p2))
            (segEquiv_clipPoint_p2 r s0 p1 p2 hv1 hv2 hc1z hc2 hinv) res hres

/-- The initial state satisfies the invariant. -/
lemma segEquiv_init (r : Rect) (s0 : Segment) : SegEquiv r s0 s0.p1 s0.p2 :=
  ⟨onSeg_p1 s0, onSeg_p2 s0, fun _ _ => Iff.rfl⟩

/-- The loop's result for fuel 9, existing for every valid rectangle, is what
`cohen_sutherland_clip` returns. -/
lemma cohen_sutherland_clip_eq_csClipAux (r : Rect)
    (hv1 : r.xmin ≤ r.xmax) (hv2 : r.ymin ≤ r.ymax) (s : Segment) :
    ∃ res : Option Segment,
      csClipAux r 9 s.p1 s.p2 = some res ∧ cohen_sutherland_clip s r = res := by
  obtain ⟨res, hres⟩ := Option.isSome_iff_exists.mp (csClipAux_fuel9_isSome r hv1 hv2 s.p1 s.p2)
  refine ⟨res, hres, ?_⟩
  unfold cohen_sutherland_clip
  rw [hres]
  rfl

/-! ### Acceptance characterization -/

/-- A segment returned by the loop was accepted with both outcodes 0. -/
lemma csClipAux_accept_codes (r : Rect) :
    ∀ fuel p1 p2 s', csClipAux r fuel p1 p2 = some (some s') →
      outcode r s'.p1 = 0 ∧ outcode r s'.p2 = 0 := by
  intro fuel
  induction fuel with
  | zero =>
    intro p1 p2 s' h
    exact Option.noConfusion h
  | succ n ih =>
    intro p1 p2 s' h
    rw [csClipAux_succ] at h
    by_cases hA : outcode r p1 = 0 ∧ outcode r p2 = 0
    · rw [if_pos hA] at h
      obtain rfl : (⟨p1, p2⟩ : Segment) = s' := Option.some.inj (Option.some.inj h)
      exact hA
    · rw [if_neg hA] at h
      by_cases hB : outcode r p1 &&& outcode r p2 ≠ 0
      · rw [if_pos hB] at h
        exact Option.noConfusion (Option.some.inj h)
      · rw [if_neg hB] at h
        by_cases hc1 : outcode r p1 ≠ 0
        · rw [if_pos hc1] at h
          exact ih _ _ _ h
        · rw [if_neg hc1] at h
          exact ih _ _ _ h

/-- A segment whose endpoints both have outcode 0 is returned unchanged
(trivial accept on the first loop entry). -/
lemma clip_of_codes_zero (s : Segment) (r : Rect)
    (h1 : outcode r s.p1 = 0) (h2 : outcode r s.p2 = 0) :
    cohen_sutherland_clip s r = some s := by
  unfold cohen_sutherland_clip
  rw [show (9 : Nat) = 8 + 1 from rfl, csClipAux_succ, if_pos ⟨h1, h2⟩]
  rfl

/-! ### Counting the clipping iterations per endpoint -/

lemma csClipCount1_succ (r : Rect) (fuel : Nat) (p1 p2 : Point) :
    csClipCount1 r (fuel + 1) p1 p2 =
      if outcode r p1 = 0 ∧ outcode r p2 = 0 then 0
      else if outcode r p1 &&& outcode r p2 ≠ 0 then 0
      else if outcode r p1 ≠ 0 then
        csClipCount1 r fuel (clipPoint r p1 p2 (outcode r p1)) p2 + 1
      else
        csClipCount1 r fuel p1 (clipPoint r p1 p2 (outcode r p2)) := rfl

lemma csClipCount2_succ (r : Rect) (fuel : Nat) (p1 p2 : Point) :
    csClipCount2 r (fuel + 1) p1 p2 =
      if outcode r p1 = 0 ∧ outcode r p2 = 0 then 0
      else if outcode r p1 &&& outcode r p2 ≠ 0 then 0
      else if outcode r p1 ≠ 0 then
        csClipCount2 r fuel (clipPoint r p1 p2 (outcode r p1)) p2
      else
        csClipCount2 r fuel p1 (clipPoint r p1 p2 (outcode r p2)) + 1 := rfl

lemma csClipCount1_eq_zero_of_and_ne (r : Rect) (fuel : Nat) (p1 p2 : Point)
    (h : outcode r p1 &&& outcode r p2 ≠ 0) : csClipCount1 r fuel p1 p2 = 0 := by
  cases fuel with
  | zero => rfl
  | succ n =>
    rw [csClipCount1_succ]
    have hA : ¬ (outcode r p1 = 0 ∧ outcode r p2 = 0) := by
      rintro ⟨ha, hb⟩
      apply h
      rw [ha]
      exact Nat.zero_and _
    rw [if_neg hA, if_pos h]

lemma csClipCount2_eq_zero_of_and_ne (r : Rect) (fuel : Nat) (p1 p2 : Point)
    (h : outcode r p1 &&& outcode r p2 ≠ 0) : csClipCount2 r fuel p1 p2 = 0 := by
  cases fuel with
  | zero => rfl
  | succ n =>
    rw [csClipCount2_succ]
    have hA : ¬ (outcode r p1 = 0 ∧ outcode r p2 = 0) := by
      rintro ⟨ha, hb⟩
      apply h
      rw [ha]
      exact Nat.zero_and _
    rw [if_neg hA, if_pos h]

/-- The first endpoint is clipped at most `cnt p1 + 1 ≤ 3` times. -/
lemma csClipCount1_le (r : Rect) (hv1 : r.xmin ≤ r.xmax) (hv2 : r.ymin ≤ r.ymax) :
    ∀ fuel p1 p2, csClipCount1 r fuel p1 p2 ≤ cnt r p1 + 1 := by
  intro fuel
  induction fuel with
  | zero =>
    intro p1 p2
    exact Nat.zero_le _
  | succ n ih =>
    intro p1 p2
    rw [csClipCount1_succ]
    by_cases hA : outcode r p1 = 0 ∧ outcode r p2 = 0
    · rw [if_pos hA]; exact Nat.zero_le _
    · rw [if_neg hA]
      by_cases hB : outcode r p1 &&& outcode r p2 ≠ 0
      · rw [if_pos hB]; exact Nat.zero_le _
      · rw [if_neg hB]
        have hand := not_not.mp hB
        by_cases hc1 : outcode r p1 ≠ 0
        · rw [if_pos hc1]
          by_cases hq : outcode r (clipPoint r p1 p2 (outcode r p1)) &&& outcode r p2 ≠ 0
          · rw [csClipCount1_eq_zero_of_and_ne r n _ p2 hq]
            omega
          · have hq0 := not_not.mp hq
            have hm := meas_decrease_p1 r p1 p2 hv1 hv2 hc1 hand
            have hcq : cnt r (clipPoint r p1 p2 (outcode r p1)) < cnt r p1 := by
              unfold meas at hm
              rw [if_pos hand, if_pos hq0] at hm
              omega
            have hih := ih (clipPoint r p1 p2 (outcode r p1)) p2
            omega
        · rw [if_neg hc1]
          exact ih p1 (clipPoint r p1 p2 (outcode r p2))

/-- The second endpoint is clipped at most `cnt p2 + 1 ≤ 3` times. -/
lemma csClipCount2_le (r : Rect) (hv1 : r.xmin ≤ r.xmax) (hv2 : r.ymin ≤ r.ymax) :
    ∀ fuel p1 p2, csClipCount2 r fuel p1 p2 ≤ cnt r p2 + 1 := by
  intro fuel
  induction fuel with
  | zero =>
    intro p1 p2
    exact Nat.zero_le _
  | succ n ih =>
    intro p1 p2
    rw [csClipCount2_succ]
    by_cases hA : outcode r p1 = 0 ∧ outcode r p2 = 0
    · rw [if_pos hA]; exact Nat.zero_le _
    · rw [if_neg hA]
      by_cases hB : outcode r p1 &&& outcode r p2 ≠ 0
      · rw [if_pos hB]; exact Nat.zero_le _
      · rw [if_neg hB]
        have hand := not_not.mp hB
        by_cases hc1 : outcode r p1 ≠ 0
        · rw [if_pos hc1]
          exact ih (clipPoint r p1 p2 (outcode r p1)) p2
        · rw [if_neg hc1]
          have hc1z := not_not.mp hc1
          have hc2 : outcode r p2 ≠ 0 := fun hz => hA ⟨hc1z, hz⟩
          by_cases hq : outcode r p1 &&& outcode r (clipPoint r p1 p2 (outcode r p2)) ≠ 0
          · rw [csClipCount2_eq_zero_of_and_ne r n p1 _ hq]
            omega
          · have hq0 := not_not.mp hq
            have hm := meas_decrease_p2 r p1 p2 hv1 hv2 hc1z hc2
            have hcq : cnt r (clipPoint r p1 p2 (outcode r p2)) < cnt r p2 := by
              unfold meas at hm
              rw [if_pos hand, if_pos hq0] at hm
              omega
            have hih := ih p1 (clipPoint r p1 p2 (outcode r p2))
            omega

/-! ### Polygon clipper lemmas -/

lemma shEdgePass_nil (A B : Point) : shEdgePass A B [] = [] := rfl

/-- `inside` holds for every point against a degenerate edge `(c, c)`. -/
lemma inside_self_edge (p c : Point) : inside p c c := by
  unfold inside
  have h : (c.x - c.x) * (p.y - c.y) - (c.y - c.y) * (p.x - c.x) = 0 := by ring
  rw [h]

lemma flatMap_eq_map {α β : Type} (l : List α) (f : α → List β) (g : α → β)
    (h : ∀ a, f a = [g a]) : l.flatMap f = l.map g := by
  induction l with
  | nil => rfl
  | cons a t iht =>
    rw [List.flatMap_cons, List.map_cons, h a, iht]
    rfl

/-- Against a degenerate clip edge `(c, c)` every point passes the inside
test, so one edge pass emits exactly the successor of each vertex. -/
lemma shEdgePass_self (c : Point) (input : List Point) :
    shEdgePass c c input =
      (List.range input.length).map
        (fun j => input.getD ((j + 1) % input.length) ⟨0, 0⟩) := by
  unfold shEdgePass
  apply flatMap_eq_map
  intro j
  dsimp only
  rw [if_pos (inside_self_edge _ c), if_neg (not_not_intro (inside_self_edge _ c))]
  rfl

/-- Reading each successor vertex in order is a rotation by one. -/
lemma map_getD_succ_eq_rotate (l : List Point) (hl : l ≠ []) :
    (List.range l.length).map (fun j => l.getD ((j + 1) % l.length) ⟨0, 0⟩) =
      l.rotate 1 := by
  have hlen : 0 < l.length := List.length_pos.mpr hl
  apply List.ext_getElem
  · rw [List.length_map, List.length_range, List.length_rotate]
  · intro i hi1 hi2
    rw [List.getElem_map, List.getElem_range, List.getElem_rotate,
      List.getD_eq_getElem l ⟨0, 0⟩ (Nat.mod_lt _ hlen)]

/-- An empty subject stays empty through every clip edge. -/
lemma sh_empty_subject (clipper : List Point) :
    sutherland_hodgman_clip_polygon [] clipper = [] := by
  unfold sutherland_hodgman_clip_polygon
  generalize List.range clipper.length = L
  induction L with
  | nil => rfl
  | cons a l ihl =>
    rw [List.foldl_cons]
    exact ihl

/-- With an empty clipper the edge loop runs zero times and the subject is
returned unchanged. -/
lemma sh_empty_clipper (poly : List Point) :
    sutherland_hodgman_clip_polygon poly [] = poly := rfl

/-! ## Claim theorems -/

/-- C1: for every input segment and valid rectangle, `cohen_sutherland_clip`
returns the sub-segment of the input inside the closed rectangle — the
returned endpoints are inside the rectangle, lie on the input segment, and
the returned segment consists exactly of the points of the input segment
inside the rectangle — or `None` when no point of the segment is inside. -/
theorem claim_C1_clip_correct (s : Segment) (r : Rect) (hr : validRect r) :
    (∀ s', cohen_sutherland_clip s r = some s' →
      inRect r s'.p1 ∧ inRect r s'.p2 ∧ onSeg s s'.p1 ∧ onSeg s s'.p2 ∧
      (∀ p, onSeg s' p ↔ (onSeg s p ∧ inRect r p))) ∧
    (cohen_sutherland_clip s r = none → ∀ p, onSeg s p → ¬ inRect r p) := by
  obtain ⟨hv1, hv2⟩ := hr
  obtain ⟨res, hres, heq⟩ := cohen_sutherland_clip_eq_csClipAux r hv1 hv2 s
  have hpost := csClipAux_post r hv1 hv2 s 9 s.p1 s.p2 (segEquiv_init r s) res hres
  constructor
  · intro s' hs'
    rw [heq] at hs'
    exact hpost.1 s' hs'
  · intro hn
    rw [heq] at hn
    exact hpost.2 hn

/-- Witness for C1 at the concrete scenario of the spec: the clipped segment
((0,0),(5,0)) has both endpoints in the rectangle and on the input segment. -/
theorem claim_C1_witness :
    inRect ⟨0, -1, 10, 1⟩ ⟨0, 0⟩ ∧ inRect ⟨0, -1, 10, 1⟩ ⟨5, 0⟩ ∧
      onSeg ⟨⟨-5, 0⟩, ⟨5, 0⟩⟩ ⟨0, 0⟩ := by
  have h := (claim_C1_clip_correct ⟨⟨-5, 0⟩, ⟨5, 0⟩⟩ ⟨0, -1, 10, 1⟩ (by decide)).1
    ⟨⟨0, 0⟩, ⟨5, 0⟩⟩
    (by norm_num [cohen_sutherland_clip, csClipAux_succ, clipPoint, outcode])
  exact ⟨h.1, h.2.1, h.2.2.1⟩

/-- C2, counterexample: with a nonempty subject and an empty clipper,
`sutherland_hodgman_clip_polygon` does not return an empty polygon (the edge
loop runs zero times, so the subject comes back unchanged). -/
theorem claim_C2_counterexample :
    ¬ (sutherland_hodgman_clip_polygon [⟨0, 0⟩] [] = []) := by
  rw [sh_empty_clipper]
  intro h
  exact List.noConfusion h

/-- C2, amended: an empty subject yields an empty polygon for every clipper,
but an empty clipper returns the subject unchanged (not an empty polygon). -/
theorem claim_C2_amended :
    (∀ clipper : List Point, sutherland_hodgman_clip_polygon [] clipper = []) ∧
    (∀ poly : List Point, sutherland_hodgman_clip_polygon poly [] = poly) :=
  ⟨sh_empty_subject, sh_empty_clipper⟩

/-- C3: at any loop state of `cohen_sutherland_clip` (valid rectangle, not
trivially accepted, not trivially rejected), with `out = c1 or c2` as in the
source, each of the four interpolation branches has a nonzero denominator:
`p2.y - p1.y ≠ 0` in the TOP and BOTTOM branches and `p2.x - p1.x ≠ 0` in the
RIGHT and LEFT branches.  This covers horizontal, vertical and zero-length
segments and degenerate (zero width or height) valid rectangles. -/
theorem claim_C3_no_division_by_zero (r : Rect) (hr : validRect r)
    (p1 p2 : Point) (out : Nat)
    (hnb : ¬ (outcode r p1 = 0 ∧ outcode r p2 = 0))
    (hand : outcode r p1 &&& outcode r p2 = 0)
    (hout : out = if outcode r p1 ≠ 0 then outcode r p1 else outcode r p2) :
    (out &&& 8 ≠ 0 → p2.y - p1.y ≠ 0) ∧
    (out &&& 8 = 0 → out &&& 4 ≠ 0 → p2.y - p1.y ≠ 0) ∧
    (out &&& 8 = 0 → out &&& 4 = 0 → out &&& 2 ≠ 0 → p2.x - p1.x ≠ 0) ∧
    (out &&& 8 = 0 → out &&& 4 = 0 → out &&& 2 = 0 → out &&& 1 ≠ 0 →
      p2.x - p1.x ≠ 0) := by
  obtain ⟨hv1, hv2⟩ := hr
  subst hout
  by_cases hc1 : outcode r p1 ≠ 0
  · simp only [if_pos hc1]
    refine ⟨?_, ?_, ?_, ?_⟩
    · intro h8 h0
      obtain ⟨_, hy1⟩ := (outcode_and_eight r p1).mp h8
      have hy2 : p2.y ≤ r.ymax := by
        by_contra hcon
        push_neg at hcon
        exact outcode_and_outcode_ne_zero r p1 p2 hv1 hv2
          (Or.inr (Or.inr (Or.inr ⟨hy1, hcon⟩))) hand
      rw [sub_eq_zero] at h0
      linarith
    · intro _ h4 h0
      have hy1 : p1.y < r.ymin := (outcode_and_four r p1).mp h4
      have hy2 : r.ymin ≤ p2.y := by
        by_contra hcon
        push_neg at hcon
        exact outcode_and_outcode_ne_zero r p1 p2 hv1 hv2
          (Or.inr (Or.inr (Or.inl ⟨hy1, hcon⟩))) hand
      rw [sub_eq_zero] at h0
      linarith
    · intro _ _ h2 h0
      obtain ⟨_, hx1⟩ := (outcode_and_two r p1).mp h2
      have hx2 : p2.x ≤ r.xmax := by
        by_contra hcon
        push_neg at hcon
        exact outcode_and_outcode_ne_zero r p1 p2 hv1 hv2
          (Or.inr (Or.inl ⟨hx1, hcon⟩)) hand
      rw [sub_eq_zero] at h0
      linarith
    · intro _ _ _ h1 h0
      have hx1 : p1.x < r.xmin := (outcode_and_one r p1).mp h1
      have hx2 : r.xmin ≤ p2.x := by
        by_contra hcon
        push_neg at hcon
        exact outcode_and_outcode_ne_zero r p1 p2 hv1 hv2
          (Or.inl ⟨hx1, hcon⟩) hand
      rw [sub_eq_zero] at h0
      linarith
  · simp only [if_neg hc1]
    have hc1z : outcode r p1 = 0 := not_not.mp hc1
    obtain ⟨ha, hb, hc, hd⟩ := (outcode_eq_zero_iff r p1).mp hc1z
    refine ⟨?_, ?_, ?_, ?_⟩
    · intro h8 h0
      obtain ⟨_, hy2⟩ := (outcode_and_eight r p2).mp h8
      rw [sub_eq_zero] at h0
      linarith
    · intro _ h4 h0
      have hy2 : p2.y < r.ymin := (outcode_and_four r p2).mp h4
      rw [sub_eq_zero] at h0
      linarith
    · intro _ _ h2 h0
      obtain ⟨_, hx2⟩ := (outcode_and_two r p2).mp h2
      rw [sub_eq_zero] at h0
      linarith
    · intro _ _ _ h1 h0
      have hx2 : p2.x < r.xmin := (outcode_and_one r p2).mp h1
      rw [sub_eq_zero] at h0
      linarith

/-- Witness for C3 at the loop state of the concrete scenario: the LEFT
branch divides by `p2.x - p1.x = 10 ≠ 0`. -/
theorem claim_C3_witness : (5 : ℚ) - (-5) ≠ 0 := by
  have h := (claim_C3_no_division_by_zero ⟨0, -1, 10, 1⟩ (by decide)
    ⟨-5, 0⟩ ⟨5, 0⟩ 1 (by decide) (by decide) (by decide)).2.2.2
    (by decide) (by decide) (by decide) (by decide)
  exact h

/-- C4: for every segment and valid rectangle, the loop of
`cohen_sutherland_clip` returns within fuel 9 (it never hits the
fuel-exhaustion marker), its value is what `cohen_sutherland_clip` returns
(a `Segment` or `None`), and it performs at most 4 clipping iterations on
each endpoint. -/
theorem claim_C4_terminates (s : Segment) (r : Rect) (hr : validRect r) :
    ∃ res : Option Segment,
      csClipAux r 9 s.p1 s.p2 = some res ∧
      cohen_sutherland_clip s r = res ∧
      csClipCount1 r 9 s.p1 s.p2 ≤ 4 ∧
      csClipCount2 r 9 s.p1 s.p2 ≤ 4 := by
  obtain ⟨hv1, hv2⟩ := hr
  obtain ⟨res, h1, h2⟩ := cohen_sutherland_clip_eq_csClipAux r hv1 hv2 s
  refine ⟨res, h1, h2, ?_, ?_⟩
  · have hle := csClipCount1_le r hv1 hv2 9 s.p1 s.p2
    have hc := cnt_le_two r s.p1
    omega
  · have hle := csClipCount2_le r hv1 hv2 9 s.p1 s.p2
    have hc := cnt_le_two r s.p2
    omega

/-- Witness for C4 at the concrete scenario. -/
theorem claim_C4_witness :
    ∃ res : Option Segment,
      csClipAux ⟨0, -1, 10, 1⟩ 9 (⟨⟨-5, 0⟩, ⟨5, 0⟩⟩ : Segment).p1
          (⟨⟨-5, 0⟩, ⟨5, 0⟩⟩ : Segment).p2 = some res ∧
      cohen_sutherland_clip ⟨⟨-5, 0⟩, ⟨5, 0⟩⟩ ⟨0, -1, 10, 1⟩ = res ∧
      csClipCount1 ⟨0, -1, 10, 1⟩ 9 (⟨⟨-5, 0⟩, ⟨5, 0⟩⟩ : Segment).p1
          (⟨⟨-5, 0⟩, ⟨5, 0⟩⟩ : Segment).p2 ≤ 4 ∧
      csClipCount2 ⟨0, -1, 10, 1⟩ 9 (⟨⟨-5, 0⟩, ⟨5, 0⟩⟩ : Segment).p1
          (⟨⟨-5, 0⟩, ⟨5, 0⟩⟩ : Segment).p2 ≤ 4 :=
  claim_C4_terminates ⟨⟨-5, 0⟩, ⟨5, 0⟩⟩ ⟨0, -1, 10, 1⟩ (by decide)

/-- C5: clipping is idempotent — a segment returned by
`cohen_sutherland_clip` is returned unchanged when clipped again against the
same rectangle. -/
theorem claim_C5_idempotent (s s' : Segment) (r : Rect)
    (h : cohen_sutherland_clip s r = some s') :
    cohen_sutherland_clip s' r = some s' := by
  have hres : csClipAux r 9 s.p1 s.p2 = some (some s') := by
    unfold cohen_sutherland_clip at h
    cases hh : csClipAux r 9 s.p1 s.p2 with
    | none =>
      rw [hh] at h
      exact Option.noConfusion h
    | some x =>
      rw [hh] at h
      have hx : x = some s' := h
      rw [hx]
  obtain ⟨hc1, hc2⟩ := csClipAux_accept_codes r 9 s.p1 s.p2 s' hres
  exact clip_of_codes_zero s' r hc1 hc2

/-- Witness for C5 at the concrete scenario: re-clipping ((0,0),(5,0)). -/
theorem claim_C5_witness :
    cohen_sutherland_clip ⟨⟨0, 0⟩, ⟨5, 0⟩⟩ ⟨0, -1, 10, 1⟩ =
      some ⟨⟨0, 0⟩, ⟨5, 0⟩⟩ :=
  claim_C5_idempotent ⟨⟨-5, 0⟩, ⟨5, 0⟩⟩ ⟨⟨0, 0⟩, ⟨5, 0⟩⟩ ⟨0, -1, 10, 1⟩
    (by norm_num [cohen_sutherland_clip, csClipAux_succ, clipPoint, outcode])

/-- C6: the square [(0,0),(4,0),(4,4),(0,4)] clipped by the triangle
[(0,0),(4,0),(0,4)] gives a 5-vertex list whose distinct vertices are
exactly a rotation of the triangle (3 vertices after removing duplicates)
and whose shoelace area is 8 — the triangle itself. -/
theorem claim_C6_concrete_polygon_scenario :
    sutherland_hodgman_clip_polygon [⟨0, 0⟩, ⟨4, 0⟩, ⟨4, 4⟩, ⟨0, 4⟩]
        [⟨0, 0⟩, ⟨4, 0⟩, ⟨0, 4⟩] =
      [⟨0, 4⟩, ⟨0, 4⟩, ⟨0, 0⟩, ⟨4, 0⟩, ⟨4, 0⟩] ∧
    ([⟨0, 4⟩, ⟨0, 4⟩, ⟨0, 0⟩, ⟨4, 0⟩, ⟨4, 0⟩] : List Point).dedup =
      [⟨0, 4⟩, ⟨0, 0⟩, ⟨4, 0⟩] ∧
    ([⟨0, 4⟩, ⟨0, 0⟩, ⟨4, 0⟩] : List Point) =
      ([⟨0, 0⟩, ⟨4, 0⟩, ⟨0, 4⟩] : List Point).rotate 2 ∧
    polyArea [⟨0, 4⟩, ⟨0, 4⟩, ⟨0, 0⟩, ⟨4, 0⟩, ⟨4, 0⟩] = 8 := by
  refine ⟨?_, ?_, ?_, ?_⟩
  · norm_num [sutherland_hodgman_clip_polygon, shEdgePass, inside, intersection,
      List.range_succ]
  · norm_num [List.dedup_cons_of_mem, List.dedup_cons_of_not_mem]
  · norm_num [List.rotate]
  · norm_num [polyArea, List.range_succ]

/-- C7: a zero-length segment is treated as a single point — returned
unchanged when its outcode is 0 (equivalently, the point is inside the
closed rectangle), rejected as `None` otherwise. -/
theorem claim_C7_zero_length (s : Segment) (r : Rect) (hr : validRect r)
    (hzero : s.p1 = s.p2) :
    (outcode r s.p1 = 0 ↔ inRect r s.p1) ∧
    (inRect r s.p1 → cohen_sutherland_clip s r = some s) ∧
    (¬ inRect r s.p1 → cohen_sutherland_clip s r = none) := by
  refine ⟨outcode_eq_zero_iff r s.p1, ?_, ?_⟩
  · intro hin
    have h1 : outcode r s.p1 = 0 := (outcode_eq_zero_iff r s.p1).mpr hin
    have h2 : outcode r s.p2 = 0 := by
      rw [← hzero]
      exact h1
    exact clip_of_codes_zero s r h1 h2
  · intro hnin
    have h1 : outcode r s.p1 ≠ 0 :=
      fun hz => hnin ((outcode_eq_zero_iff r s.p1).mp hz)
    unfold cohen_sutherland_clip
    rw [show (9 : Nat) = 8 + 1 from rfl, csClipAux_succ]
    have hA : ¬ (outcode r s.p1 = 0 ∧ outcode r s.p2 = 0) := fun hz => h1 hz.1
    have hB : outcode r s.p1 &&& outcode r s.p2 ≠ 0 := by
      rw [← hzero, Nat.and_self]
      exact h1
    rw [if_neg hA, if_pos hB]
    rfl

/-- Witness for C7: the zero-length segment at (1,1) is inside the
rectangle and returned unchanged. -/
theorem claim_C7_witness :
    cohen_sutherland_clip ⟨⟨1, 1⟩, ⟨1, 1⟩⟩ ⟨0, -1, 10, 1⟩ =
      some ⟨⟨1, 1⟩, ⟨1, 1⟩⟩ :=
  (claim_C7_zero_length ⟨⟨1, 1⟩, ⟨1, 1⟩⟩ ⟨0, -1, 10, 1⟩ (by decide) rfl).2.1
    (by decide)

/-- C8: in the polygon clipper's `intersection` routine, a zero determinant
of the 2×2 implicit-form system returns `P2` unchanged; otherwise the
returned point solves both implicit line equations
`A1 x + B1 y = C1` and `A2 x + B2 y = C2`. -/
theorem claim_C8_intersection_routine (p1 p2 a b : Point) :
    ((p2.y - p1.y) * (a.x - b.x) - (b.y - a.y) * (p1.x - p2.x) = 0 →
      intersection p1 p2 a b = p2) ∧
    ((p2.y - p1.y) * (a.x - b.x) - (b.y - a.y) * (p1.x - p2.x) ≠ 0 →
      (p2.y - p1.y) * (intersection p1 p2 a b).x +
          (p1.x - p2.x) * (intersection p1 p2 a b).y =
        (p2.y - p1.y) * p1.x + (p1.x - p2.x) * p1.y ∧
      (b.y - a.y) * (intersection p1 p2 a b).x +
          (a.x - b.x) * (intersection p1 p2 a b).y =
        (b.y - a.y) * a.x + (a.x - b.x) * a.y) := by
  constructor
  · intro h
    unfold intersection
    dsimp only
    rw [if_pos h]
  · intro h
    unfold intersection
    dsimp only
    rw [if_neg h]
    dsimp only
    constructor
    · field_simp
      ring
    · field_simp
      ring

/-- Witness for C8: the diagonal (0,0)–(2,2) against the clip line through
(0,2)–(2,0) has nonzero determinant and the returned point satisfies the
first implicit equation. -/
theorem claim_C8_witness :
    ((⟨2, 2⟩ : Point).y - (⟨0, 0⟩ : Point).y) *
        (intersection ⟨0, 0⟩ ⟨2, 2⟩ ⟨0, 2⟩ ⟨2, 0⟩).x +
      ((⟨0, 0⟩ : Point).x - (⟨2, 2⟩ : Point).x) *
        (intersection ⟨0, 0⟩ ⟨2, 2⟩ ⟨0, 2⟩ ⟨2, 0⟩).y =
      ((⟨2, 2⟩ : Point).y - (⟨0, 0⟩ : Point).y) * (⟨0, 0⟩ : Point).x +
        ((⟨0, 0⟩ : Point).x - (⟨2, 2⟩ : Point).x) * (⟨0, 0⟩ : Point).y :=
  ((claim_C8_intersection_routine ⟨0, 0⟩ ⟨2, 2⟩ ⟨0, 2⟩ ⟨2, 0⟩).2
    (by norm_num)).1

/-- C9: the concrete scenario — segment ((-5,0),(5,0)) clipped against the
rectangle (0,-1,10,1) yields the segment ((0,0),(5,0)). -/
theorem claim_C9_concrete_segment_scenario :
    cohen_sutherland_clip ⟨⟨-5, 0⟩, ⟨5, 0⟩⟩ ⟨0, -1, 10, 1⟩ =
      some ⟨⟨0, 0⟩, ⟨5, 0⟩⟩ := by
  norm_num [cohen_sutherland_clip, csClipAux_succ, clipPoint, outcode]

/-- C10: with a single-vertex clipper the unique clip edge is degenerate
(`A = B`), the inside test `0 ≥ 0` accepts every point, and the pass emits
each successor vertex in walk order: the result is the subject rotated by
one position. -/
theorem claim_C10_single_vertex_clipper (poly : List Point) (c : Point)
    (hne : poly ≠ []) :
    sutherland_hodgman_clip_polygon poly [c] = poly.rotate 1 := by
  have hstep : sutherland_hodgman_clip_polygon poly [c] = shEdgePass c c poly := by
    norm_num [sutherland_hodgman_clip_polygon, List.range_succ, List.getD]
  rw [hstep, shEdgePass_self, map_getD_succ_eq_rotate poly hne]

/-- Witness for C10 on a concrete two-vertex subject. -/
theorem claim_C10_witness :
    sutherland_hodgman_clip_polygon [⟨1, 2⟩, ⟨3, 4⟩] [⟨5, 6⟩] =
      ([⟨1, 2⟩, ⟨3, 4⟩] : List Point).rotate 1 :=
  claim_C10_single_vertex_clipper [⟨1, 2⟩, ⟨3, 4⟩] ⟨5, 6⟩ (by decide)

end Lab5
